import Mathlib

/-!
# prometheus-libvirt: stats classification, target resolution, scrape liveness

A shallow embedding of `common.go` (package `promlibvirt`):

* `CollectStats` walks the per-domain statistics snapshot and sends one
  constant metric per recognised key;
* `CollectFromLibvirt` parses the connection URI, resolves
  (driver, hypervisor, transport) from the scheme, fetches the snapshot and
  hands it to `CollectStats`;
* `LibvirtExporter.Collect` runs a scrape and sends the `libvirt_up` gauge.

Conventions of the embedding.

* A channel send `ch <- m` appends `m` to the list of metrics sent so far; a
  run is the list of metrics sent together with the way the call ended
  (returned, with or without an error, or panicked).
* Go `range` over a map visits the entries in an order chosen by the runtime:
  a snapshot is the list of its entries in the order of the visit.
* `float64` values are modelled exactly (see `F64`): conversions from integers
  and the division round to nearest, ties to even, at 53 significant bits.
* `fmt.Printf` and `log.Printf` only write to the standard streams, which are
  not part of the model.
-/

set_option autoImplicit false

namespace PromLibvirt

/-! ## float64 -/

/-- A finite non-negative binary64 value `mant * 2 ^ exp`. Values built by
`F64.normalize` have an odd mantissa, or are `0 * 2 ^ 0`, so that equal numbers
are equal records. Signs, infinities and NaN never arise from the unsigned
inputs of `CollectStats` and are not modelled; neither is the exponent range,
as every value that arises lies between `2 ^ (-30)` and `2 ^ 74`. -/
structure F64 where
  mant : Nat
  exp : Int
deriving DecidableEq, Repr

namespace F64

/-- The rational number a value denotes. -/
def toRat (x : F64) : ℚ := (x.mant : ℚ) * (2 : ℚ) ^ x.exp

/-- Number of binary digits of `n`, computed with `fuel` halvings. -/
def bitLen : Nat → Nat → Nat
  | 0, _ => 0
  | fuel + 1, n => if n = 0 then 0 else bitLen fuel (n / 2) + 1

/-- Divides the mantissa by two and increments the exponent while the mantissa
is even and not zero (at most `fuel` times). -/
def stripTwos : Nat → Nat → Int → F64
  | 0, m, e => ⟨m, e⟩
  | fuel + 1, m, e =>
    if m ≠ 0 ∧ m % 2 = 0 then stripTwos fuel (m / 2) (e + 1) else ⟨m, e⟩

/-- The record of `m * 2 ^ e` in lowest terms. -/
def normalize (m : Nat) (e : Int) : F64 :=
  if m = 0 then ⟨0, 0⟩ else stripTwos m m e

/-- The binary64 value nearest to the quotient `n / d`, ties to even: the
quotient is scaled by a power of two `2 ^ k` into `[2 ^ 52, 2 ^ 53)`, rounded
to an integer mantissa there, and scaled back. -/
def round (n d : Nat) : F64 :=
  if n = 0 ∨ d = 0 then ⟨0, 0⟩
  else
    let k0 : Int := (bitLen n n : Int) - (bitLen d d : Int) - 52
    let k : Int := if n * 2 ^ (-k0).toNat < d * 2 ^ k0.toNat * 2 ^ 52 then k0 - 1 else k0
    let num := n * 2 ^ (-k).toNat
    let den := d * 2 ^ k.toNat
    let q := num / den
    let r := num % den
    let m := if 2 * r < den then q else if den < 2 * r then q + 1
      else if q % 2 = 0 then q else q + 1
    normalize m k

/-- Go conversion `float64(v)` of an unsigned integer. -/
def ofNat (v : Nat) : F64 := round v 1

/-- Go `x / y` on float64 operands (`y` not zero). -/
def div (x y : F64) : F64 :=
  round (x.mant * 2 ^ (x.exp - y.exp).toNat) (y.mant * 2 ^ (y.exp - x.exp).toNat)

/-- Go `x * y` on float64 operands. -/
def mul (x y : F64) : F64 :=
  round (x.mant * y.mant * 2 ^ (x.exp + y.exp).toNat) (2 ^ (-(x.exp + y.exp)).toNat)

end F64

deriving instance DecidableEq for Except

/-! ## prometheus client: descriptors and constant metrics -/

/-- Go `prometheus.BuildFQName`: joins the non-empty parts with `_`; an empty
name gives the empty string. -/
def BuildFQName (namespace_ subsystem name : String) : String :=
  if name = "" then ""
  else if namespace_ ≠ "" ∧ subsystem ≠ "" then namespace_ ++ "_" ++ subsystem ++ "_" ++ name
  else if namespace_ ≠ "" then namespace_ ++ "_" ++ name
  else if subsystem ≠ "" then subsystem ++ "_" ++ name
  else name

/-- A metric descriptor `prometheus.Desc`: fully qualified name, help text and
the names of the variable labels. All descriptors of the package are built
with `nil` constant labels, and from names that are valid metric and label
names, so a descriptor carries no construction error. -/
structure Desc where
  fqName : String
  help : String
  variableLabels : List String
deriving DecidableEq, Repr

/-- Go `prometheus.NewDesc(fqName, help, variableLabels, nil)`. -/
def NewDesc (fqName help : String) (variableLabels : List String) : Desc :=
  ⟨fqName, help, variableLabels⟩

/-- Go `prometheus.ValueType`. -/
inductive ValueType
  | CounterValue
  | GaugeValue
  | UntypedValue
deriving DecidableEq, Repr

/-- A constant metric: what is sent on the channel. -/
structure Metric where
  desc : Desc
  valueType : ValueType
  value : F64
  labelValues : List String
deriving DecidableEq, Repr

/-- The ways a call can panic. -/
inductive Panic
  /-- Runtime error: slice bounds out of range. -/
  | sliceBounds
  /-- Runtime error: interface conversion, the dynamic type is not the asserted one. -/
  | typeAssertion
  /-- The call `panic(fmt.Sprintf("xxx %s %s %s\n", dname, ikey, ival))`. -/
  | unknownLeaf (dname ikey : String)
  /-- Panic of `MustNewConstMetric`: the number of label values is not the
  number of variable labels of the descriptor. -/
  | inconsistentCardinality
deriving DecidableEq, Repr

/-- Go `prometheus.MustNewConstMetric`: panics when the number of label values
differs from the number of variable labels of the descriptor. The library
also rejects label values that are not valid UTF-8; the strings of this
embedding are sequences of Unicode characters, so that check cannot fail. -/
def MustNewConstMetric (desc : Desc) (valueType : ValueType) (value : F64)
    (labelValues : List String) : Except Panic Metric :=
  if labelValues.length = desc.variableLabels.length then
    .ok ⟨desc, valueType, value, labelValues⟩
  else .error .inconsistentCardinality

/-! ## descriptors of the package -/

def libvirtUpDesc : Desc :=
  NewDesc (BuildFQName "libvirt" "" "up")
    "Whether scraping libvirt's metrics was successful." []

def libvirtDomainMemoryMaximumDesc : Desc :=
  NewDesc (BuildFQName "libvirt" "domain_memory" "maximum_bytes")
    "Maximum allowed memory of the domain, in bytes." ["domain"]

def libvirtDomainMemoryCurrentDesc : Desc :=
  NewDesc (BuildFQName "libvirt" "domain_memory" "current_bytes")
    "Memory usage of the domain, in bytes." ["domain"]

def libvirtDomainMemoryResidentDesc : Desc :=
  NewDesc (BuildFQName "libvirt" "domain_memory" "resident_bytes")
    "Memory usage of the domain, in bytes." ["domain"]

def libvirtDomainMemoryLastUpdateDesc : Desc :=
  NewDesc (BuildFQName "libvirt" "domain_memory" "last_update_stats")
    "Last update of memory stats, in seconds." ["domain"]

def libvirtDomainCpuTimeDesc : Desc :=
  NewDesc (BuildFQName "libvirt" "domain_cpu" "time_seconds_total")
    "Amount of CPU time used by the domain, in seconds." ["domain"]

def libvirtDomainCpuSystemDesc : Desc :=
  NewDesc (BuildFQName "libvirt" "domain_cpu" "system_seconds_total")
    "Amount of CPU time used by the domain, in seconds." ["domain"]

def libvirtDomainCpuUserDesc : Desc :=
  NewDesc (BuildFQName "libvirt" "domain_cpu" "user_seconds_total")
    "Amount of CPU time used by the domain, in seconds." ["domain"]

def libvirtDomainVcpuMaximumDesc : Desc :=
  NewDesc (BuildFQName "libvirt" "domain_vcpu" "maximum")
    "Number of maximum virtual CPUs for the domain." ["domain"]

def libvirtDomainVcpuCurrentDesc : Desc :=
  NewDesc (BuildFQName "libvirt" "domain_vcpu" "current")
    "Number of current virtual CPUs for the domain." ["domain"]

/-! ## the statistics snapshot -/

/-- The dynamic value of a snapshot entry (`interface{}`): one of the scalar
kinds of a libvirt typed parameter. `uint32 n` is well formed for
`n < 2 ^ 32` and `uint64 n` for `n < 2 ^ 64`. -/
inductive Value
  | int32 (i : Int)
  | uint32 (n : Nat)
  | int64 (i : Int)
  | uint64 (n : Nat)
  | float64 (x : F64)
  | bool (b : Bool)
  | string (s : String)
deriving DecidableEq, Repr

/-- Go type assertion `ival.(uint32)`: panics for any other dynamic type. -/
def Value.assertUint32 : Value → Except Panic Nat
  | .uint32 n => .ok n
  | _ => .error .typeAssertion

/-- Go type assertion `ival.(uint64)`: panics for any other dynamic type. -/
def Value.assertUint64 : Value → Except Panic Nat
  | .uint64 n => .ok n
  | _ => .error .typeAssertion

/-- The entries of one domain, in the order the `range` loop visits them. -/
abbrev Items := List (String × Value)

/-- The snapshot `map[string]map[string]interface{}`, domains and entries in
the order the `range` loops visit them. -/
abbrev Stats := List (String × Items)

/-! ## string helpers

Positions count characters where Go counts bytes. The separator `.` is a
single byte that never occurs inside a multi-byte character, so the slices
`ikey[:idx]` and `ikey[idx+1:]` are the same strings either way. -/

/-- Position of the first `c` in a list of characters, `-1` if there is none. -/
def indexChars (c : Char) : List Char → Int
  | [] => -1
  | x :: xs =>
    if x = c then 0
    else if indexChars c xs < 0 then -1 else indexChars c xs + 1

/-- Position of the last `c` in a list of characters, `-1` if there is none. -/
def lastIndexChars (c : Char) : List Char → Int
  | [] => -1
  | x :: xs =>
    if 0 ≤ lastIndexChars c xs then lastIndexChars c xs + 1
    else if x = c then 0 else -1

/-- Go `strings.Index(s, sep)` for a separator of one character. -/
def stringsIndex (s : String) (sep : Char) : Int := indexChars sep s.data

/-- Go `strings.LastIndex(s, sep)` for a separator of one character. -/
def stringsLastIndex (s : String) (sep : Char) : Int := lastIndexChars sep s.data

/-- Go slice expression `s[:hi]`: panics unless `0 ≤ hi ≤ len(s)`. -/
def sliceTo (s : String) (hi : Int) : Except Panic String :=
  if 0 ≤ hi ∧ hi ≤ (s.data.length : Int) then .ok ⟨s.data.take hi.toNat⟩
  else .error .sliceBounds

/-- Go slice expression `s[lo:]`: panics unless `0 ≤ lo ≤ len(s)`. -/
def sliceFrom (s : String) (lo : Int) : Except Panic String :=
  if 0 ≤ lo ∧ lo ≤ (s.data.length : Int) then .ok ⟨s.data.drop lo.toNat⟩
  else .error .sliceBounds

/-! ## CollectStats -/

/-- The constant `1e9` as a float64. -/
def f1e9 : F64 := F64.ofNat 1000000000

/-- The constant `1024` as a float64. -/
def f1024 : F64 := F64.ofNat 1024

/-- One iteration of the inner loop of `CollectStats`, for the entry
`ikey = ival` of domain `dname`: the metrics it sends, or the panic that ends
the call. -/
def collectItem (dname ikey : String) (ival : Value) : Except Panic (List Metric) := do
  let idx := stringsIndex ikey '.'
  let _idxl := stringsLastIndex ikey '.'
  let key ← sliceTo ikey idx
  if key = "vcpu" then do
    let leaf ← sliceFrom ikey (idx + 1)
    if leaf = "maximum" then do
      let v ← ival.assertUint32
      let m ← MustNewConstMetric libvirtDomainVcpuMaximumDesc .GaugeValue (F64.ofNat v) [dname]
      pure [m]
    else if leaf = "current" then do
      let v ← ival.assertUint32
      let m ← MustNewConstMetric libvirtDomainVcpuCurrentDesc .GaugeValue (F64.ofNat v) [dname]
      pure [m]
    else pure []
  else if key = "cpu" then do
    let leaf ← sliceFrom ikey (idx + 1)
    if leaf = "user" then do
      let v ← ival.assertUint64
      let m ← MustNewConstMetric libvirtDomainCpuUserDesc .CounterValue
        (F64.div (F64.ofNat v) f1e9) [dname]
      pure [m]
    else if leaf = "system" then do
      let v ← ival.assertUint64
      let m ← MustNewConstMetric libvirtDomainCpuSystemDesc .CounterValue
        (F64.div (F64.ofNat v) f1e9) [dname]
      pure [m]
    else if leaf = "time" then do
      let v ← ival.assertUint64
      let m ← MustNewConstMetric libvirtDomainCpuTimeDesc .CounterValue
        (F64.div (F64.ofNat v) f1e9) [dname]
      pure [m]
    else pure []
  else if key = "balloon" then do
    let leaf ← sliceFrom ikey (idx + 1)
    if leaf = "last-update" then do
      let v ← ival.assertUint64
      let m ← MustNewConstMetric libvirtDomainMemoryLastUpdateDesc .GaugeValue
        (F64.ofNat v) [dname]
      pure [m]
    else if leaf = "maximum" then do
      let v ← ival.assertUint64
      let m ← MustNewConstMetric libvirtDomainMemoryMaximumDesc .GaugeValue
        (F64.mul (F64.ofNat v) f1024) [dname]
      pure [m]
    else if leaf = "current" then do
      let v ← ival.assertUint64
      let m ← MustNewConstMetric libvirtDomainMemoryCurrentDesc .GaugeValue
        (F64.mul (F64.ofNat v) f1024) [dname]
      pure [m]
    else if leaf = "rss" then do
      let v ← ival.assertUint64
      let m ← MustNewConstMetric libvirtDomainMemoryResidentDesc .GaugeValue
        (F64.mul (F64.ofNat v) f1024) [dname]
      pure [m]
    else throw (.unknownLeaf dname ikey)
  else pure []

/-- How a call ended: it returned (with an error or `nil`), or it panicked. -/
inductive Outcome
  | returned (err : Option String)
  | panicked (p : Panic)
deriving DecidableEq, Repr

/-- A run of a function that sends on the metric channel: the metrics sent, in
order, and the way the call ended. -/
structure Run where
  sent : List Metric
  outcome : Outcome
deriving DecidableEq, Repr

/-- The inner loop `for ikey, ival := range items`: the metrics sent, and the
panic that stopped the loop, if any. -/
def rangeItems (dname : String) : Items → List Metric × Option Panic
  | [] => ([], none)
  | (ikey, ival) :: rest =>
    match collectItem dname ikey ival with
    | .error p => ([], some p)
    | .ok ms => (ms ++ (rangeItems dname rest).1, (rangeItems dname rest).2)

/-- The outer loop `for dname, items := range stats`. -/
def rangeStats : Stats → List Metric × Option Panic
  | [] => ([], none)
  | (dname, items) :: rest =>
    match rangeItems dname items with
    | (ms, some p) => (ms, some p)
    | (ms, none) => (ms ++ (rangeStats rest).1, (rangeStats rest).2)

/-- Go `CollectStats(ch, stats)`: after the loops it returns `nil`. -/
def CollectStats (stats : Stats) : Run :=
  match rangeStats stats with
  | (ms, some p) => ⟨ms, .panicked p⟩
  | (ms, none) => ⟨ms, .returned none⟩

/-! ## CollectFromLibvirt -/

/-- The field of a parsed `url.URL` that the package reads. -/
structure URL where
  Scheme : String
deriving DecidableEq, Repr

/-- Go `unicode.IsSpace`: the characters with the Unicode property White
Space. -/
def isSpace (c : Char) : Bool :=
  decide (c.toNat = 0x09 ∨ c.toNat = 0x0A ∨ c.toNat = 0x0B ∨ c.toNat = 0x0C ∨ c.toNat = 0x0D
    ∨ c.toNat = 0x20 ∨ c.toNat = 0x85 ∨ c.toNat = 0xA0 ∨ c.toNat = 0x1680
    ∨ (0x2000 ≤ c.toNat ∧ c.toNat ≤ 0x200A) ∨ c.toNat = 0x2028 ∨ c.toNat = 0x2029
    ∨ c.toNat = 0x202F ∨ c.toNat = 0x205F ∨ c.toNat = 0x3000)

/-- The fields of a list of characters: the maximal runs of characters that
are not white space. `cur` is the field read so far. -/
def fieldsChars : List Char → List Char → List (List Char)
  | cur, [] => if cur = [] then [] else [cur]
  | cur, c :: cs =>
    if isSpace c then
      if cur = [] then fieldsChars [] cs else cur :: fieldsChars [] cs
    else fieldsChars (cur ++ [c]) cs

/-- Go `strings.Fields`: splits the string around each run of white space
and returns the fields, without empty strings. The source calls it as
`strings.Fields(u.Scheme, "+")`; `strings.Fields` has no separator parameter,
so the second argument has no part in what is computed. -/
def stringsFields (s : String) (_sep : String) : List String :=
  (fieldsChars [] s.data).map String.mk

/-- The segments of a list of characters between occurrences of `sep`. -/
def splitChars (sep : Char) : List Char → List (List Char)
  | [] => [[]]
  | x :: xs =>
    if x = sep then [] :: splitChars sep xs
    else
      match splitChars sep xs with
      | [] => [[x]]
      | seg :: segs => (x :: seg) :: segs

/-- The segments of a scheme between `+`, as the specification counts them.
The code does not compute them (see `stringsFields`); they serve to say how
many segments a scheme has when stating what the code does with it. -/
def plusSegments (scheme : String) : List String :=
  (splitChars '+' scheme.data).map String.mk

/-- The local variables `driver`, `hyper` and `proto` of `CollectFromLibvirt`. -/
structure Target where
  driver : String
  hyper : String
  proto : String
deriving DecidableEq, Repr

/-- The collaborators of a scrape that are not code of the package, with the
results they give during one scrape. -/
structure Libvirt where
  /-- Go `url.Parse`. -/
  urlParse : String → Except String URL
  /-- The right-hand side that the source leaves out in `hyper =` (default
  branch of the switch on the number of fields). -/
  hyperDefault : String
  /-- The error of `lv.Connect("")`, `none` for `nil`. -/
  connect : Option String
  /-- The result of `lv.ConnectGetAllDomainStats(0, 0)`. -/
  connectGetAllDomainStats : Except String Stats

/-- The switch `switch len(fields)` of `CollectFromLibvirt`: the values of
`driver`, `hyper` and `proto` after it (`proto` keeps its zero value in the
default branch). -/
def resolveTarget (hyperDefault scheme : String) : Target :=
  let fields := stringsFields scheme "+"
  if fields.length = 3 then ⟨fields.getD 0 "", fields.getD 1 "", fields.getD 2 ""⟩
  else if fields.length = 2 then ⟨"auto", fields.getD 0 "", fields.getD 1 ""⟩
  else ⟨"auto", hyperDefault, ""⟩

/-- First part of `CollectFromLibvirt`: parse the URI, then resolve
`driver`, `hyper` and `proto` from the scheme. A parse error is returned. -/
def parseAndResolve (env : Libvirt) (uri : String) : Except String (URL × Target) :=
  match env.urlParse uri with
  | .error err => .error err
  | .ok u => .ok (u, resolveTarget env.hyperDefault u.Scheme)

/-- Go `CollectFromLibvirt(ch, uri)`. After the resolution the function
switches on the whole scheme: only `dbus` has a case, every other scheme takes
the default branch and returns `invalid driver`. -/
def CollectFromLibvirt (env : Libvirt) (uri : String) : Run :=
  match parseAndResolve env uri with
  | .error err => ⟨[], .returned (some err)⟩
  | .ok (u, _) =>
    if u.Scheme = "dbus" then
      match env.connect with
      | some err => ⟨[], .returned (some err)⟩
      | none =>
        match env.connectGetAllDomainStats with
        | .error err => ⟨[], .returned (some err)⟩
        | .ok stats => CollectStats stats
    else ⟨[], .returned (some ("invalid driver: " ++ u.Scheme))⟩

/-! ## the exporter -/

/-- The exporter. The source declares the field as a URL and passes it where
`CollectFromLibvirt` takes a string: it is kept as the URI string. -/
structure LibvirtExporter where
  uri : String
deriving DecidableEq, Repr

/-- Go `(*LibvirtExporter).Collect`: runs the scrape, then sends the
`libvirt_up` gauge, `1.0` if the scrape returned `nil` and `0.0` if it returned
an error. The method has no `recover`: a panic of the scrape ends it. -/
def LibvirtExporter.Collect (env : Libvirt) (e : LibvirtExporter) : Run :=
  let r := CollectFromLibvirt env e.uri
  match r.outcome with
  | .panicked p => ⟨r.sent, .panicked p⟩
  | .returned none =>
    match MustNewConstMetric libvirtUpDesc .GaugeValue (F64.ofNat 1) [] with
    | .ok m => ⟨r.sent ++ [m], .returned none⟩
    | .error p => ⟨r.sent, .panicked p⟩
  | .returned (some _) =>
    match MustNewConstMetric libvirtUpDesc .GaugeValue (F64.ofNat 0) [] with
    | .ok m => ⟨r.sent ++ [m], .returned none⟩
    | .error p => ⟨r.sent, .panicked p⟩

/-- Collaborators for evaluating a scrape: `url.Parse` gives the URL `u`, the
connection succeeds and the snapshot is `stats`. It is used with URIs whose
scheme, as `url.Parse` gives it, is the scheme of `u`. -/
def connected (u : URL) (stats : Stats) : Libvirt :=
  ⟨fun _ => .ok u, "", none, .ok stats⟩

/-! ## descriptors of the block and network metrics, and `Describe` -/

def libvirtDomainBlockAllocBytesDesc : Desc :=
  NewDesc (BuildFQName "libvirt" "domain_block" "alloc_bytes_total")
    "Number of bytes allocated for device, in bytes." ["domain", "source", "target"]

def libvirtDomainBlockCapBytesDesc : Desc :=
  NewDesc (BuildFQName "libvirt" "domain_block" "cap_bytes_total")
    "Number of bytes capacity for device, in bytes." ["domain", "source", "target"]

def libvirtDomainBlockPhysBytesDesc : Desc :=
  NewDesc (BuildFQName "libvirt" "domain_block" "phy_bytes_total")
    "Number of bytes physical for device, in bytes." ["domain", "source", "target"]

def libvirtDomainBlockRdBytesDesc : Desc :=
  NewDesc (BuildFQName "libvirt" "domain_block" "read_bytes_total")
    "Number of bytes read from device, in bytes." ["domain", "source", "target"]

def libvirtDomainBlockRdReqsDesc : Desc :=
  NewDesc (BuildFQName "libvirt" "domain_block" "read_requests_total")
    "Number of read requests from device." ["domain", "source", "target"]

def libvirtDomainBlockRdTimesDesc : Desc :=
  NewDesc (BuildFQName "libvirt" "domain_block" "read_seconds_total")
    "Amount of time spent reading from a block device, in seconds."
    ["domain", "source", "target"]

def libvirtDomainBlockWrBytesDesc : Desc :=
  NewDesc (BuildFQName "libvirt" "domain_block" "write_bytes_total")
    "Number of bytes written from a block device, in bytes." ["domain", "source", "target"]

def libvirtDomainBlockWrReqsDesc : Desc :=
  NewDesc (BuildFQName "libvirt" "domain_block" "write_requests_total")
    "Number of write requests from a block device." ["domain", "source", "target"]

def libvirtDomainBlockWrTimesDesc : Desc :=
  NewDesc (BuildFQName "libvirt" "domain_block" "write_seconds_total")
    "Amount of time spent writing from a block device, in seconds."
    ["domain", "source", "target"]

def libvirtDomainBlockFlReqsDesc : Desc :=
  NewDesc (BuildFQName "libvirt" "domain_block" "flush_requests_total")
    "Number of flush requests from a block device." ["domain", "source", "target"]

def libvirtDomainBlockFlTimesDesc : Desc :=
  NewDesc (BuildFQName "libvirt" "domain_block" "flush_seconds_total")
    "Amount of time spent flushing of a block device, in seconds."
    ["domain", "source", "target"]

def libvirtDomainNetRxBytesDesc : Desc :=
  NewDesc (BuildFQName "libvirt" "domain_net" "receive_bytes_total")
    "Number of bytes received on a network interface, in bytes."
    ["domain", "source", "target"]

def libvirtDomainNetRxPktsDesc : Desc :=
  NewDesc (BuildFQName "libvirt" "domain_net" "receive_packets_total")
    "Number of packets received on a network interface." ["domain", "source", "target"]

def libvirtDomainNetRxErrsDesc : Desc :=
  NewDesc (BuildFQName "libvirt" "domain_net" "receive_errors_total")
    "Number of packet receive errors on a network interface." ["domain", "source", "target"]

def libvirtDomainNetRxDropDesc : Desc :=
  NewDesc (BuildFQName "libvirt" "domain_net" "receive_drops_total")
    "Number of packet receive drops on a network interface." ["domain", "source", "target"]

def libvirtDomainNetTxBytesDesc : Desc :=
  NewDesc (BuildFQName "libvirt" "domain_net" "transmit_bytes_total")
    "Number of bytes transmitted on a network interface, in bytes."
    ["domain", "source", "target"]

def libvirtDomainNetTxPktsDesc : Desc :=
  NewDesc (BuildFQName "libvirt" "domain_net" "transmit_packets_total")
    "Number of packets transmitted on a network interface." ["domain", "source", "target"]

def libvirtDomainNetTxErrsDesc : Desc :=
  NewDesc (BuildFQName "libvirt" "domain_net" "transmit_errors_total")
    "Number of packet transmit errors on a network interface." ["domain", "source", "target"]

def libvirtDomainNetTxDropDesc : Desc :=
  NewDesc (BuildFQName "libvirt" "domain_net" "transmit_drops_total")
    "Number of packet transmit drops on a network interface." ["domain", "source", "target"]

/-- Go `(*LibvirtExporter).Describe`: the descriptors it sends on the channel,
in order. The method reads nothing from the exporter. -/
def LibvirtExporter.Describe : List Desc :=
  [libvirtUpDesc,
   libvirtDomainMemoryMaximumDesc, libvirtDomainMemoryCurrentDesc,
   libvirtDomainMemoryResidentDesc, libvirtDomainMemoryLastUpdateDesc,
   libvirtDomainCpuTimeDesc, libvirtDomainCpuSystemDesc, libvirtDomainCpuUserDesc,
   libvirtDomainVcpuMaximumDesc, libvirtDomainVcpuCurrentDesc,
   libvirtDomainBlockRdBytesDesc, libvirtDomainBlockRdReqsDesc, libvirtDomainBlockRdTimesDesc,
   libvirtDomainBlockWrBytesDesc, libvirtDomainBlockWrReqsDesc, libvirtDomainBlockWrTimesDesc,
   libvirtDomainBlockFlReqsDesc, libvirtDomainBlockFlTimesDesc]

/-! ## the visit of a snapshot as one sequence of entries -/

/-- An entry of the snapshot with its domain: (domain, key, value). -/
abbrev Entry := String × String × Value

/-- The entries of a snapshot in the order in which the two nested loops of
`CollectStats` visit them. -/
def entries : Stats → List Entry
  | [] => []
  | (dname, items) :: rest => items.map (fun kv => (dname, kv.1, kv.2)) ++ entries rest

/-- The two nested loops of `CollectStats` as one loop over the visited
entries (`rangeStats_eq_rangeEntries` shows that it is the same run). -/
def rangeEntries : List Entry → List Metric × Option Panic
  | [] => ([], none)
  | (dname, ikey, ival) :: rest =>
    match collectItem dname ikey ival with
    | .error p => ([], some p)
    | .ok ms => (ms ++ (rangeEntries rest).1, (rangeEntries rest).2)

/-- The metrics that the loop iteration for one entry sends (none if the
iteration panics). -/
def entryMetrics (e : Entry) : List Metric :=
  match collectItem e.1 e.2.1 e.2.2 with
  | .ok ms => ms
  | .error _ => []

/-! ## the inner switches of `CollectStats` as functions of the leaf -/

/-- The switch on `ikey[idx+1:]` in `case "vcpu"`, as a function of that
leaf. -/
def vcpuSwitch (dname leaf : String) (ival : Value) : Except Panic (List Metric) := do
  if leaf = "maximum" then do
    let v ← ival.assertUint32
    let m ← MustNewConstMetric libvirtDomainVcpuMaximumDesc .GaugeValue (F64.ofNat v) [dname]
    pure [m]
  else if leaf = "current" then do
    let v ← ival.assertUint32
    let m ← MustNewConstMetric libvirtDomainVcpuCurrentDesc .GaugeValue (F64.ofNat v) [dname]
    pure [m]
  else pure []

/-- The switch on `ikey[idx+1:]` in `case "cpu"`, as a function of that
leaf. -/
def cpuSwitch (dname leaf : String) (ival : Value) : Except Panic (List Metric) := do
  if leaf = "user" then do
    let v ← ival.assertUint64
    let m ← MustNewConstMetric libvirtDomainCpuUserDesc .CounterValue
      (F64.div (F64.ofNat v) f1e9) [dname]
    pure [m]
  else if leaf = "system" then do
    let v ← ival.assertUint64
    let m ← MustNewConstMetric libvirtDomainCpuSystemDesc .CounterValue
      (F64.div (F64.ofNat v) f1e9) [dname]
    pure [m]
  else if leaf = "time" then do
    let v ← ival.assertUint64
    let m ← MustNewConstMetric libvirtDomainCpuTimeDesc .CounterValue
      (F64.div (F64.ofNat v) f1e9) [dname]
    pure [m]
  else pure []

/-- The switch on `ikey[idx+1:]` in `case "balloon"`, as a function of that
leaf; the panic of its default branch names the whole key. -/
def balloonSwitch (dname ikey leaf : String) (ival : Value) : Except Panic (List Metric) := do
  if leaf = "last-update" then do
    let v ← ival.assertUint64
    let m ← MustNewConstMetric libvirtDomainMemoryLastUpdateDesc .GaugeValue
      (F64.ofNat v) [dname]
    pure [m]
  else if leaf = "maximum" then do
    let v ← ival.assertUint64
    let m ← MustNewConstMetric libvirtDomainMemoryMaximumDesc .GaugeValue
      (F64.mul (F64.ofNat v) f1024) [dname]
    pure [m]
  else if leaf = "current" then do
    let v ← ival.assertUint64
    let m ← MustNewConstMetric libvirtDomainMemoryCurrentDesc .GaugeValue
      (F64.mul (F64.ofNat v) f1024) [dname]
    pure [m]
  else if leaf = "rss" then do
    let v ← ival.assertUint64
    let m ← MustNewConstMetric libvirtDomainMemoryResidentDesc .GaugeValue
      (F64.mul (F64.ofNat v) f1024) [dname]
    pure [m]
  else throw (.unknownLeaf dname ikey)

namespace F64

theorem bitLen_bounds : ∀ (fuel n : Nat), n ≠ 0 → n < 2 ^ fuel →
    2 ^ (bitLen fuel n) ≤ 2 * n ∧ n < 2 ^ (bitLen fuel n)
  | 0, n, h0, h => by
    simp at h
    omega
  | fuel + 1, n, h0, h => by
    unfold bitLen
    rw [if_neg h0]
    by_cases h2 : n / 2 = 0
    · have h1 : n = 1 := by omega
      subst h1
      cases fuel <;> simp [bitLen]
    · have hlt : n / 2 < 2 ^ fuel := by
        rw [pow_succ] at h
        omega
      obtain ⟨a, b⟩ := bitLen_bounds fuel (n / 2) h2 hlt
      rw [pow_succ]
      constructor <;> omega

theorem bitLen_self (n : Nat) (h0 : n ≠ 0) :
    2 ^ (bitLen n n) ≤ 2 * n ∧ n < 2 ^ (bitLen n n) :=
  bitLen_bounds n n h0 (Nat.lt_two_pow n)

theorem toRat_stripTwos : ∀ (fuel m : Nat) (e : Int),
    (stripTwos fuel m e).toRat = (m : ℚ) * (2 : ℚ) ^ e
  | 0, m, e => rfl
  | fuel + 1, m, e => by
    unfold stripTwos
    split
    · rename_i h
      rw [toRat_stripTwos fuel (m / 2) (e + 1)]
      have hm : m = 2 * (m / 2) := by omega
      rw [zpow_add₀ (by norm_num : (2 : ℚ) ≠ 0)]
      conv_rhs => rw [hm]
      push_cast
      ring
    · rfl

theorem toRat_normalize (m : Nat) (e : Int) :
    (normalize m e).toRat = (m : ℚ) * (2 : ℚ) ^ e := by
  unfold normalize
  split
  · rename_i h
    subst h
    simp [toRat]
  · exact toRat_stripTwos m m e

theorem scaled_quot (n d : Nat) (k : Int) (hd : d ≠ 0) :
    ((n * 2 ^ (-k).toNat : Nat) : ℚ) / ((d * 2 ^ k.toNat : Nat) : ℚ)
      = (n : ℚ) / d * (2 : ℚ) ^ (-k) := by
  have hd' : (d : ℚ) ≠ 0 := by exact_mod_cast hd
  rcases le_total 0 k with hk | hk
  · obtain ⟨j, rfl⟩ := Int.eq_ofNat_of_zero_le hk
    have h1 : (-(j : Int)).toNat = 0 := by omega
    rw [h1, Int.toNat_natCast, zpow_neg, zpow_natCast]
    push_cast
    field_simp
  · obtain ⟨j, hj⟩ := Int.eq_ofNat_of_zero_le (neg_nonneg.mpr hk)
    have h1 : k.toNat = 0 := by omega
    rw [h1, hj, Int.toNat_natCast, zpow_natCast]
    push_cast
    field_simp

theorem nearest_int (N D : Nat) (hD : 0 < D) :
    |(((if 2 * (N % D) < D then N / D else if D < 2 * (N % D) then N / D + 1
        else if N / D % 2 = 0 then N / D else N / D + 1 : Nat) : ℚ)) - (N : ℚ) / D| ≤ 1 / 2 := by
  have hD' : (0 : ℚ) < D := by exact_mod_cast hD
  have hr : N % D < D := Nat.mod_lt _ hD
  have hN : (N : ℚ) = (D : ℚ) * ((N / D : Nat) : ℚ) + ((N % D : Nat) : ℚ) := by
    exact_mod_cast (Nat.div_add_mod N D).symm
  have hq : (N : ℚ) / D = ((N / D : Nat) : ℚ) + ((N % D : Nat) : ℚ) / D := by
    conv_lhs => rw [hN]
    rw [add_div, mul_div_cancel_left₀ _ hD'.ne']
  rw [hq, abs_le]
  have hr0 : (0 : ℚ) ≤ ((N % D : Nat) : ℚ) := Nat.cast_nonneg _
  have hr1 : ((N % D : Nat) : ℚ) < D := by exact_mod_cast hr
  have key : ∀ (c : ℚ), c * D = ((N % D : Nat) : ℚ) → ((N % D : Nat) : ℚ) / D = c := by
    intro c hc; rw [← hc]; field_simp
  split_ifs with h1 h2 h3
  · have h1' : 2 * ((N % D : Nat) : ℚ) < D := by exact_mod_cast h1
    have : ((N % D : Nat) : ℚ) / D < 1 / 2 := by
      rw [div_lt_iff₀ hD']; linarith
    have : 0 ≤ ((N % D : Nat) : ℚ) / D := div_nonneg hr0 hD'.le
    constructor <;> linarith
  · have h2' : (D : ℚ) < 2 * ((N % D : Nat) : ℚ) := by exact_mod_cast h2
    have : 1 / 2 < ((N % D : Nat) : ℚ) / D := by
      rw [lt_div_iff₀ hD']; linarith
    have : ((N % D : Nat) : ℚ) / D < 1 := by
      rw [div_lt_iff₀ hD']; linarith
    push_cast
    constructor <;> linarith
  · have he : 2 * (N % D) = D := by omega
    have he' : 2 * ((N % D : Nat) : ℚ) = D := by exact_mod_cast he
    have : ((N % D : Nat) : ℚ) / D = 1 / 2 := by
      apply key; linarith
    constructor <;> linarith
  · have he : 2 * (N % D) = D := by omega
    have he' : 2 * ((N % D : Nat) : ℚ) = D := by exact_mod_cast he
    have : ((N % D : Nat) : ℚ) / D = 1 / 2 := by
      apply key; linarith
    push_cast
    constructor <;> linarith


theorem coarse_range (n d : Nat) (hn : n ≠ 0) (hd : d ≠ 0) :
    (2 : ℚ) ^ 51 < (n : ℚ) / d * (2 : ℚ) ^ (-((bitLen n n : Int) - (bitLen d d : Int) - 52))
    ∧ (n : ℚ) / d * (2 : ℚ) ^ (-((bitLen n n : Int) - (bitLen d d : Int) - 52)) < (2 : ℚ) ^ 53 := by
  obtain ⟨hn1, hn2⟩ := bitLen_self n hn
  obtain ⟨hd1, hd2⟩ := bitLen_self d hd
  have hd' : (0 : ℚ) < d := by exact_mod_cast Nat.pos_of_ne_zero hd
  have hn1' : (2 : ℚ) ^ (bitLen n n) ≤ 2 * n := by exact_mod_cast hn1
  have hn2' : (n : ℚ) < 2 ^ (bitLen n n) := by exact_mod_cast hn2
  have hd1' : (2 : ℚ) ^ (bitLen d d) ≤ 2 * d := by exact_mod_cast hd1
  have hd2' : (d : ℚ) < 2 ^ (bitLen d d) := by exact_mod_cast hd2
  have hpn : (0 : ℚ) < 2 ^ (bitLen n n) := by positivity
  have hpd : (0 : ℚ) < 2 ^ (bitLen d d) := by positivity
  have hz : (2 : ℚ) ^ (-((bitLen n n : Int) - (bitLen d d : Int) - 52))
      = 2 ^ 52 * 2 ^ (bitLen d d) / 2 ^ (bitLen n n) := by
    rw [show -((bitLen n n : Int) - (bitLen d d : Int) - 52)
        = ((52 : Nat) : Int) + (bitLen d d : Int) - (bitLen n n : Int) by push_cast; ring]
    rw [zpow_sub₀ (by norm_num : (2 : ℚ) ≠ 0), zpow_add₀ (by norm_num : (2 : ℚ) ≠ 0)]
    simp only [zpow_natCast]
  rw [hz]
  have e : (n : ℚ) / d * (2 ^ 52 * 2 ^ (bitLen d d) / 2 ^ (bitLen n n))
      = (n * 2 ^ 52 * 2 ^ (bitLen d d)) / (d * 2 ^ (bitLen n n)) := by
    field_simp
    ring
  rw [e]
  have hden : (0 : ℚ) < d * 2 ^ (bitLen n n) := by positivity
  constructor
  · rw [lt_div_iff₀ hden]
    nlinarith [mul_pos hd' hpn, mul_lt_mul_of_pos_right hd2' hpn,
      mul_le_mul_of_nonneg_right hn1' hpd.le]
  · rw [div_lt_iff₀ hden]
    nlinarith [mul_pos hd' hpn, mul_lt_mul_of_pos_right hn2' hpd,
      mul_le_mul_of_nonneg_right hd1' hpn.le]

theorem round_spec (n d : Nat) (hn : n ≠ 0) (hd : d ≠ 0) :
    ∃ (k : Int) (m : Nat), round n d = normalize m k
      ∧ (2 : ℚ) ^ 52 ≤ (n : ℚ) / d * (2 : ℚ) ^ (-k)
      ∧ (n : ℚ) / d * (2 : ℚ) ^ (-k) < (2 : ℚ) ^ 53
      ∧ |(m : ℚ) - (n : ℚ) / d * (2 : ℚ) ^ (-k)| ≤ 1 / 2 := by
  obtain ⟨hlo, hhi⟩ := coarse_range n d hn hd
  unfold round
  rw [if_neg (by simp [hn, hd])]
  simp only []
  generalize (bitLen n n : Int) - (bitLen d d : Int) - 52 = k0 at hlo hhi ⊢
  have hden : ∀ k : Int, 0 < d * 2 ^ k.toNat := fun k =>
    Nat.mul_pos (Nat.pos_of_ne_zero hd) (by positivity)
  have hcond : (n * 2 ^ (-k0).toNat < d * 2 ^ k0.toNat * 2 ^ 52)
      ↔ (n : ℚ) / d * (2 : ℚ) ^ (-k0) < (2 : ℚ) ^ 52 := by
    rw [← scaled_quot n d k0 hd, div_lt_iff₀ (by exact_mod_cast hden k0)]
    have e : ((n * 2 ^ (-k0).toNat : Nat) : ℚ) < (2 : ℚ) ^ 52 * ((d * 2 ^ k0.toNat : Nat) : ℚ)
        ↔ ((n * 2 ^ (-k0).toNat : Nat) : ℚ) < ((d * 2 ^ k0.toNat * 2 ^ 52 : Nat) : ℚ) := by
      rw [mul_comm ((2 : ℚ) ^ 52)]
      push_cast
      exact Iff.rfl
    rw [e, Nat.cast_lt]
  refine ⟨_, _, rfl, ?_, ?_, ?_⟩
  · split_ifs with h
    · have h' := hcond.mp h
      rw [show -(k0 - 1) = -k0 + 1 by ring, zpow_add₀ (by norm_num : (2 : ℚ) ≠ 0)]
      norm_num at hlo ⊢
      linarith
    · have h' := not_lt.mp (fun c => h (hcond.mpr c))
      exact h'
  · split_ifs with h
    · have h' := hcond.mp h
      rw [show -(k0 - 1) = -k0 + 1 by ring, zpow_add₀ (by norm_num : (2 : ℚ) ≠ 0)]
      norm_num at h' ⊢
      linarith
    · exact hhi
  · rw [← scaled_quot n d _ hd]
    exact nearest_int _ _ (hden _)

theorem round_error (n d : Nat) (hn : n ≠ 0) (hd : d ≠ 0) :
    |(round n d).toRat - (n : ℚ) / d| ≤ (n : ℚ) / d / 2 ^ 53 := by
  obtain ⟨k, m, hr, hlo, _, hm⟩ := round_spec n d hn hd
  have hv : (round n d).toRat = (m : ℚ) * (2 : ℚ) ^ k := by rw [hr, toRat_normalize]
  have hk : (0 : ℚ) < (2 : ℚ) ^ k := by positivity
  have hx : (n : ℚ) / d = (n : ℚ) / d * (2 : ℚ) ^ (-k) * (2 : ℚ) ^ k := by
    rw [mul_assoc, ← zpow_add₀ (by norm_num : (2 : ℚ) ≠ 0)]
    simp
  generalize (n : ℚ) / d * (2 : ℚ) ^ (-k) = x at hx hlo hm
  rw [hv, hx, ← sub_mul, abs_mul, abs_of_pos hk, mul_div_right_comm]
  apply mul_le_mul_of_nonneg_right _ hk.le
  rw [le_div_iff₀ (by positivity)]
  calc |(m : ℚ) - x| * 2 ^ 53 ≤ 1 / 2 * 2 ^ 53 :=
        mul_le_mul_of_nonneg_right hm (by positivity)
    _ = 2 ^ 52 := by norm_num
    _ ≤ x := hlo

theorem round_exact (n d M : Nat) (j : Int) (hn : n ≠ 0) (hd : d ≠ 0)
    (hM : M ≤ 2 ^ 53) (h : (n : ℚ) / d = (M : ℚ) * (2 : ℚ) ^ j) :
    (round n d).toRat = (n : ℚ) / d := by
  obtain ⟨k, m, hr, hlo, hhi, hm⟩ := round_spec n d hn hd
  have hv : (round n d).toRat = (m : ℚ) * (2 : ℚ) ^ k := by rw [hr, toRat_normalize]
  have h2 : (2 : ℚ) ≠ 0 := by norm_num
  have hx : (n : ℚ) / d * (2 : ℚ) ^ (-k) = (M : ℚ) * (2 : ℚ) ^ (j - k) := by
    rw [h, mul_assoc, ← zpow_add₀ h2, sub_eq_add_neg]
  have hback : (n : ℚ) / d = (n : ℚ) / d * (2 : ℚ) ^ (-k) * (2 : ℚ) ^ k := by
    rw [mul_assoc, ← zpow_add₀ h2]
    simp
  have hint : ∃ z : Nat, (n : ℚ) / d * (2 : ℚ) ^ (-k) = (z : ℚ) := by
    rcases le_or_lt 0 (j - k) with ht | ht
    · obtain ⟨t, ht'⟩ := Int.eq_ofNat_of_zero_le ht
      refine ⟨M * 2 ^ t, ?_⟩
      rw [hx, ht', zpow_natCast]
      push_cast
      rfl
    · obtain ⟨s, hs⟩ := Int.exists_eq_neg_ofNat ht.le
      have hs0 : s ≠ 0 := by
        rintro rfl
        simp at hs
        omega
      obtain ⟨s', rfl⟩ := Nat.exists_eq_succ_of_ne_zero hs0
      rw [hx, hs, zpow_neg, zpow_natCast] at hlo
      have hp : (0 : ℚ) < (2 : ℚ) ^ (s' + 1) := by positivity
      have hM' : (M : ℚ) ≤ 2 ^ 53 := by exact_mod_cast hM
      have h1 : (2 : ℚ) ^ 52 * 2 ^ (s' + 1) ≤ M := by
        rwa [← div_eq_mul_inv, le_div_iff₀ hp] at hlo
      have e : (2 : ℚ) ^ (s' + 1) = 2 ^ s' * 2 := pow_succ _ _
      rw [e] at h1
      have h3 : (2 : ℚ) ^ s' ≤ 1 := by
        have hM'' : (M : ℚ) ≤ 9007199254740992 := by exact_mod_cast hM
        norm_num at h1
        linarith
      have h4 : s' = 0 := by
        by_contra hne
        have : (2 : ℚ) ≤ 2 ^ s' := by
          calc (2 : ℚ) = 2 ^ 1 := by norm_num
            _ ≤ 2 ^ s' := pow_le_pow_right₀ (by norm_num) (Nat.one_le_iff_ne_zero.mpr hne)
        linarith
      subst h4
      have h5 : (M : ℚ) = 2 ^ 53 := by
        norm_num at h1
        linarith
      refine ⟨2 ^ 52, ?_⟩
      rw [hx, hs, zpow_neg, zpow_natCast, h5]
      norm_num
  obtain ⟨z, hz⟩ := hint
  rw [hz] at hm
  have hmz : m = z := by
    have h6 : |((m : Int) : ℚ) - ((z : Int) : ℚ)| ≤ 1 / 2 := by
      simpa using hm
    have h7 : |((m : Int) - (z : Int) : Int)| < 1 := by
      have : (|((m : Int) - (z : Int) : Int)| : ℚ) < 1 := by
        push_cast
        linarith
      exact_mod_cast this
    have h8 := abs_lt.mp h7
    omega
  rw [hv, hback, hz, hmz]

theorem stripTwos_mant_le : ∀ (fuel m : Nat) (e : Int), (stripTwos fuel m e).mant ≤ m
  | 0, m, e => le_refl m
  | fuel + 1, m, e => by
    unfold stripTwos
    split
    · exact le_trans (stripTwos_mant_le fuel (m / 2) (e + 1)) (Nat.div_le_self m 2)
    · exact le_refl m

theorem normalize_mant_le (m : Nat) (e : Int) : (normalize m e).mant ≤ m := by
  unfold normalize
  split
  · exact Nat.zero_le m
  · exact stripTwos_mant_le m m e

theorem round_mant_le (n d : Nat) : (round n d).mant ≤ 2 ^ 53 := by
  by_cases h : n = 0 ∨ d = 0
  · unfold round
    rw [if_pos h]
    exact Nat.zero_le _
  · push_neg at h
    obtain ⟨k, m, hr, _, hhi, hm⟩ := round_spec n d h.1 h.2
    rw [hr]
    refine le_trans (normalize_mant_le m k) ?_
    have h1 := (abs_le.mp hm).2
    have h2 : (m : ℚ) < 2 ^ 53 + 1 := by linarith
    have h3 : m < 2 ^ 53 + 1 := by exact_mod_cast h2
    omega

theorem toRat_ofNat (v : Nat) (hv : v ≤ 2 ^ 53) : (ofNat v).toRat = (v : ℚ) := by
  by_cases h : v = 0
  · subst h
    simp [ofNat, round, toRat]
  · have := round_exact v 1 v 0 h one_ne_zero hv (by simp)
    simpa [ofNat] using this

theorem ofNat_error (v : Nat) : |(ofNat v).toRat - (v : ℚ)| ≤ (v : ℚ) / 2 ^ 53 := by
  by_cases h : v = 0
  · subst h
    simp [ofNat, round, toRat]
  · have := round_error v 1 h one_ne_zero
    simpa [ofNat] using this

theorem div_quot (x y : F64) (hy : y.mant ≠ 0) :
    ((x.mant * 2 ^ (x.exp - y.exp).toNat : Nat) : ℚ)
        / ((y.mant * 2 ^ (y.exp - x.exp).toNat : Nat) : ℚ) = x.toRat / y.toRat := by
  have h := scaled_quot x.mant y.mant (y.exp - x.exp) hy
  rw [neg_sub] at h
  rw [h, toRat, toRat, zpow_sub₀ (by norm_num : (2 : ℚ) ≠ 0)]
  have hy' : (y.mant : ℚ) ≠ 0 := by exact_mod_cast hy
  field_simp

theorem div_error (x y : F64) (hx : x.mant ≠ 0) (hy : y.mant ≠ 0) :
    |(div x y).toRat - x.toRat / y.toRat| ≤ x.toRat / y.toRat / 2 ^ 53 := by
  have h := round_error (x.mant * 2 ^ (x.exp - y.exp).toNat) (y.mant * 2 ^ (y.exp - x.exp).toNat)
    (Nat.mul_ne_zero hx (by positivity)) (Nat.mul_ne_zero hy (by positivity))
  rw [div_quot x y hy] at h
  exact h

theorem mul_quot (x y : F64) :
    ((x.mant * y.mant * 2 ^ (x.exp + y.exp).toNat : Nat) : ℚ)
        / ((2 ^ (-(x.exp + y.exp)).toNat : Nat) : ℚ) = x.toRat * y.toRat := by
  have h := scaled_quot (x.mant * y.mant) 1 (-(x.exp + y.exp)) one_ne_zero
  rw [neg_neg, one_mul] at h
  rw [h, toRat, toRat, zpow_add₀ (by norm_num : (2 : ℚ) ≠ 0)]
  push_cast
  ring

theorem mul_exact (x y : F64) (h : x.mant * y.mant ≤ 2 ^ 53) :
    (mul x y).toRat = x.toRat * y.toRat := by
  by_cases h0 : x.mant * y.mant = 0
  · have e : mul x y = ⟨0, 0⟩ := by
      unfold mul round
      rw [if_pos (Or.inl (by rw [h0, Nat.zero_mul]))]
    rw [e]
    rcases Nat.mul_eq_zero.mp h0 with hx | hy
    · simp [toRat, hx]
    · simp [toRat, hy]
  · have hq := mul_quot x y
    have := round_exact (x.mant * y.mant * 2 ^ (x.exp + y.exp).toNat)
      (2 ^ (-(x.exp + y.exp)).toNat) (x.mant * y.mant) (x.exp + y.exp)
      (Nat.mul_ne_zero h0 (by positivity)) (by positivity) h
      (by rw [hq, toRat, toRat, zpow_add₀ (by norm_num : (2 : ℚ) ≠ 0)]; push_cast; ring)
    rw [hq] at this
    exact this

theorem mant_ne_zero_of_toRat (x : F64) (h : x.toRat ≠ 0) : x.mant ≠ 0 := by
  intro h0
  apply h
  simp [toRat, h0]

theorem round_zero_left (d : Nat) : round 0 d = ⟨0, 0⟩ := by
  unfold round
  rw [if_pos (Or.inl rfl)]

theorem toRat_ofNat_pos (v : Nat) (hv : v ≠ 0) : 0 < (ofNat v).toRat := by
  have h := (abs_le.mp (ofNat_error v)).1
  have hv' : (0 : ℚ) < v := by exact_mod_cast Nat.pos_of_ne_zero hv
  have : (v : ℚ) / 2 ^ 53 < v := by
    rw [div_lt_iff₀ (by positivity)]
    nlinarith
  linarith

theorem div_ofNat_error (v c : Nat) (hc : c ≠ 0) (hc53 : c ≤ 2 ^ 53) :
    |(div (ofNat v) (ofNat c)).toRat - (v : ℚ) / c| ≤ (v : ℚ) / c / 2 ^ 51 := by
  have hcq : (0 : ℚ) < c := by exact_mod_cast Nat.pos_of_ne_zero hc
  have hyc : (ofNat c).toRat = (c : ℚ) := toRat_ofNat c hc53
  by_cases hv : v = 0
  · subst hv
    have e : ofNat 0 = ⟨0, 0⟩ := round_zero_left 1
    have e2 : div (ofNat 0) (ofNat c) = ⟨0, 0⟩ := by
      rw [e]
      unfold div
      simp only [Nat.zero_mul]
      exact round_zero_left _
    rw [e2]
    simp [toRat]
  · have hvq : (0 : ℚ) < v := by exact_mod_cast Nat.pos_of_ne_zero hv
    have hx := toRat_ofNat_pos v hv
    have hy : (ofNat c).toRat ≠ 0 := by rw [hyc]; exact hcq.ne'
    have h1 := div_error (ofNat v) (ofNat c) (mant_ne_zero_of_toRat _ hx.ne')
      (mant_ne_zero_of_toRat _ hy)
    have h2 := ofNat_error v
    rw [hyc] at h1
    generalize (div (ofNat v) (ofNat c)).toRat = b at h1
    generalize (ofNat v).toRat = a at h1 h2 hx
    rw [abs_le] at h1 h2 ⊢
    have ha : a / c - (v : ℚ) / c = (a - v) / c := by ring
    have hlo : -((v : ℚ) / 2 ^ 53) / c ≤ (a - v) / c :=
      (div_le_div_iff_of_pos_right hcq).mpr h2.1
    have hhi : (a - v) / c ≤ ((v : ℚ) / 2 ^ 53) / c :=
      (div_le_div_iff_of_pos_right hcq).mpr h2.2
    have hw : (0 : ℚ) < (v : ℚ) / c := div_pos hvq hcq
    have e1 : ((v : ℚ) / 2 ^ 53) / c = (v : ℚ) / c / 2 ^ 53 := by ring
    have e2 : -((v : ℚ) / 2 ^ 53) / c = -((v : ℚ) / c / 2 ^ 53) := by ring
    have e3 : a / c / 2 ^ 53 = (a / c - (v : ℚ) / c) / 2 ^ 53 + (v : ℚ) / c / 2 ^ 53 := by ring
    have e4 : (v : ℚ) / c / 2 ^ 51 = 4 * ((v : ℚ) / c / 2 ^ 53) := by ring
    rw [e1] at hhi
    rw [e2] at hlo
    rw [← ha] at hlo hhi
    rw [e3] at h1
    rw [e4]
    generalize (v : ℚ) / c = w at *
    generalize a / c = t at *
    have hw53 : 0 < w / 2 ^ 53 := by positivity
    have hsmall : (t - w) / 2 ^ 53 ≤ w / 2 ^ 53 := by
      have : t - w ≤ w / 2 ^ 53 := hhi
      have : w / 2 ^ 53 ≤ w := by
        rw [div_le_iff₀ (by positivity)]
        nlinarith
      apply (div_le_div_iff_of_pos_right (by positivity)).mpr
      linarith
    have hsmall' : -(w / 2 ^ 53) ≤ (t - w) / 2 ^ 53 := by
      have : -(w / 2 ^ 53) ≤ t - w := hlo
      have : w / 2 ^ 53 ≤ w := by
        rw [div_le_iff₀ (by positivity)]
        nlinarith
      have h0 : -w ≤ t - w := by linarith
      have : -w / 2 ^ 53 ≤ (t - w) / 2 ^ 53 :=
        (div_le_div_iff_of_pos_right (by positivity)).mpr h0
      have e5 : -w / 2 ^ 53 = -(w / 2 ^ 53) := by ring
      linarith
    constructor <;> linarith [h1.1, h1.2]

theorem div_ofNat_exact (v c s : Nat) (hc : c ≠ 0) (hc53 : c ≤ 2 ^ 53) (hv53 : v ≤ 2 ^ 53)
    (hs : v = s * c) : (div (ofNat v) (ofNat c)).toRat = (s : ℚ) := by
  have hcq : (0 : ℚ) < c := by exact_mod_cast Nat.pos_of_ne_zero hc
  have hyc : (ofNat c).toRat = (c : ℚ) := toRat_ofNat c hc53
  have hxv : (ofNat v).toRat = (v : ℚ) := toRat_ofNat v hv53
  by_cases hv : v = 0
  · have hs0 : s = 0 := by
      rw [hv] at hs
      rcases Nat.mul_eq_zero.mp hs.symm with h | h
      · exact h
      · exact absurd h hc
    subst hv
    have e : ofNat 0 = ⟨0, 0⟩ := round_zero_left 1
    have e2 : div (ofNat 0) (ofNat c) = ⟨0, 0⟩ := by
      rw [e]
      unfold div
      simp only [Nat.zero_mul]
      exact round_zero_left _
    rw [e2, hs0]
    simp [toRat]
  · have hx : (ofNat v).mant ≠ 0 := mant_ne_zero_of_toRat _ (toRat_ofNat_pos v hv).ne'
    have hy : (ofNat c).mant ≠ 0 := mant_ne_zero_of_toRat _ (by rw [hyc]; exact hcq.ne')
    have hq := div_quot (ofNat v) (ofNat c) hy
    have hsc : (v : ℚ) / c = (s : ℚ) := by
      rw [hs]
      push_cast
      field_simp
    have hsle : s ≤ 2 ^ 53 := by
      have : s ≤ s * c := Nat.le_mul_of_pos_right s (Nat.pos_of_ne_zero hc)
      omega
    have := round_exact ((ofNat v).mant * 2 ^ ((ofNat v).exp - (ofNat c).exp).toNat)
      ((ofNat c).mant * 2 ^ ((ofNat c).exp - (ofNat v).exp).toNat) s 0
      (Nat.mul_ne_zero hx (by positivity)) (Nat.mul_ne_zero hy (by positivity)) hsle
      (by rw [hq, hxv, hyc, hsc]; simp)
    rw [hq, hxv, hyc, hsc] at this
    exact this

theorem mul_ofNat_exact (v : Nat) (j : Nat) :
    (mul (ofNat v) ⟨1, j⟩).toRat = (ofNat v).toRat * 2 ^ j := by
  have h := mul_exact (ofNat v) ⟨1, j⟩ (by
    show (ofNat v).mant * 1 ≤ 2 ^ 53
    rw [Nat.mul_one]
    exact round_mant_le v 1)
  rw [h]
  simp [toRat]

end F64

/-! ## lemmas on the string helpers and the loops -/

theorem indexChars_append (c : Char) (rest : List Char) :
    ∀ (ns : List Char), c ∉ ns → indexChars c (ns ++ c :: rest) = (ns.length : Int)
  | [], _ => by simp [indexChars]
  | x :: xs, h => by
    have hx : x ≠ c := fun e => h (by simp [e])
    have hxs : c ∉ xs := fun e => h (by simp [e])
    have ih := indexChars_append c rest xs hxs
    rw [List.cons_append, indexChars, if_neg hx, ih, if_neg (by omega), List.length_cons]
    push_cast
    rfl

theorem indexChars_not_mem (c : Char) :
    ∀ (l : List Char), c ∉ l → indexChars c l = -1
  | [], _ => rfl
  | x :: xs, h => by
    have hx : x ≠ c := fun e => h (by simp [e])
    have hxs : c ∉ xs := fun e => h (by simp [e])
    rw [indexChars, if_neg hx, indexChars_not_mem c xs hxs]
    rfl

theorem key_data (ns rest : String) :
    (ns ++ "." ++ rest).data = ns.data ++ '.' :: rest.data := by
  simp [String.data_append]

theorem sliceTo_key (ns rest : String) (h : '.' ∉ ns.data) :
    sliceTo (ns ++ "." ++ rest) (stringsIndex (ns ++ "." ++ rest) '.') = .ok ns := by
  unfold sliceTo stringsIndex
  rw [key_data, indexChars_append '.' rest.data ns.data h]
  have hlen : (ns.data.length : Int) ≤ ((ns.data ++ '.' :: rest.data).length : Int) := by
    rw [List.length_append]
    push_cast
    omega
  rw [if_pos ⟨Int.natCast_nonneg _, hlen⟩, Int.toNat_natCast, List.take_left' rfl]

theorem sliceFrom_key (ns rest : String) (h : '.' ∉ ns.data) :
    sliceFrom (ns ++ "." ++ rest) (stringsIndex (ns ++ "." ++ rest) '.' + 1) = .ok rest := by
  unfold sliceFrom stringsIndex
  rw [key_data, indexChars_append '.' rest.data ns.data h]
  have hlen : (ns.data.length : Int) + 1 ≤ ((ns.data ++ '.' :: rest.data).length : Int) := by
    rw [List.length_append, List.length_cons]
    push_cast
    omega
  have hnat : ((ns.data.length : Int) + 1).toNat = ns.data.length + 1 := by omega
  rw [if_pos ⟨by omega, hlen⟩, hnat]
  have hd : List.drop (ns.data.length + 1) (ns.data ++ '.' :: rest.data) = rest.data := by
    rw [← List.drop_drop, List.drop_left' rfl]
    rfl
  rw [hd]

theorem rangeItems_cons_ok (d k : String) (v : Value) (ms : List Metric) (rest : Items)
    (h : collectItem d k v = .ok ms) :
    rangeItems d ((k, v) :: rest) = (ms ++ (rangeItems d rest).1, (rangeItems d rest).2) := by
  rw [rangeItems, h]

theorem rangeItems_cons_error (d k : String) (v : Value) (p : Panic) (rest : Items)
    (h : collectItem d k v = .error p) :
    rangeItems d ((k, v) :: rest) = ([], some p) := by
  rw [rangeItems, h]

theorem rangeItems_append_none (d : String) (post : Items) :
    ∀ (pre : Items), (rangeItems d pre).2 = none →
      rangeItems d (pre ++ post)
        = ((rangeItems d pre).1 ++ (rangeItems d post).1, (rangeItems d post).2)
  | [], _ => by simp [rangeItems]
  | (k, v) :: pre, h => by
    cases hc : collectItem d k v with
    | error p =>
      rw [rangeItems_cons_error d k v p pre hc] at h
      cases h
    | ok ms =>
      rw [rangeItems_cons_ok d k v ms pre hc] at h
      rw [List.cons_append, rangeItems_cons_ok d k v ms _ hc,
        rangeItems_cons_ok d k v ms pre hc, rangeItems_append_none d post pre h]
      simp

theorem rangeItems_append_some (d : String) (post : Items) (p : Panic) :
    ∀ (pre : Items), (rangeItems d pre).2 = some p →
      rangeItems d (pre ++ post) = rangeItems d pre
  | [], h => by simp [rangeItems] at h
  | (k, v) :: pre, h => by
    cases hc : collectItem d k v with
    | error q =>
      rw [List.cons_append, rangeItems_cons_error d k v q _ hc,
        rangeItems_cons_error d k v q _ hc]
    | ok ms =>
      rw [rangeItems_cons_ok d k v ms pre hc] at h
      rw [List.cons_append, rangeItems_cons_ok d k v ms _ hc,
        rangeItems_cons_ok d k v ms pre hc, rangeItems_append_some d post p pre h]

theorem rangeItems_skip (d k : String) (v : Value) (pre post : Items)
    (h : collectItem d k v = .ok []) :
    rangeItems d (pre ++ (k, v) :: post) = rangeItems d (pre ++ post) := by
  cases hp : (rangeItems d pre).2 with
  | none =>
    rw [rangeItems_append_none d _ pre hp, rangeItems_append_none d _ pre hp,
      rangeItems_cons_ok d k v [] post h]
    rfl
  | some p =>
    rw [rangeItems_append_some d _ p pre hp, rangeItems_append_some d _ p pre hp]

theorem rangeStats_cons (d : String) (items : Items) (rest : Stats) :
    rangeStats ((d, items) :: rest)
      = match rangeItems d items with
        | (ms, some p) => (ms, some p)
        | (ms, none) => (ms ++ (rangeStats rest).1, (rangeStats rest).2) := by
  rw [rangeStats]

theorem rangeStats_congr (d : String) (items items' : Items) (after : Stats)
    (h : rangeItems d items = rangeItems d items') :
    ∀ (before : Stats),
      rangeStats (before ++ (d, items) :: after) = rangeStats (before ++ (d, items') :: after)
  | [] => by
    rw [List.nil_append, List.nil_append, rangeStats_cons, rangeStats_cons, h]
  | (d0, items0) :: before => by
    rw [List.cons_append, List.cons_append, rangeStats_cons, rangeStats_cons,
      rangeStats_congr d items items' after h before]

theorem rangeStats_append_none (after : Stats) :
    ∀ (before : Stats), (rangeStats before).2 = none →
      rangeStats (before ++ after)
        = ((rangeStats before).1 ++ (rangeStats after).1, (rangeStats after).2)
  | [], _ => by simp [rangeStats]
  | (d, items) :: before, h => by
    rw [rangeStats_cons] at h
    rw [List.cons_append, rangeStats_cons, rangeStats_cons]
    rcases hr : rangeItems d items with ⟨ms, _ | p⟩
    · rw [hr] at h
      simp only at h ⊢
      rw [rangeStats_append_none after before h]
      simp
    · rw [hr] at h
      simp at h

theorem CollectStats_congr (d : String) (items items' : Items) (before after : Stats)
    (h : rangeItems d items = rangeItems d items') :
    CollectStats (before ++ (d, items) :: after) = CollectStats (before ++ (d, items') :: after) := by
  unfold CollectStats
  rw [rangeStats_congr d items items' after h before]

theorem CollectStats_returned (stats : Stats) (ms : List Metric)
    (h : CollectStats stats = ⟨ms, .returned none⟩) : rangeStats stats = (ms, none) := by
  unfold CollectStats at h
  rcases hr : rangeStats stats with ⟨ms', _ | p⟩
  · rw [hr] at h
    simp only [Run.mk.injEq] at h
    rw [h.1]
  · rw [hr] at h
    simp at h

theorem rangeItems_of_single (d : String) (items : Items) (ms : List Metric)
    (h : rangeStats [(d, items)] = (ms, none)) : rangeItems d items = (ms, none) := by
  rw [rangeStats_cons] at h
  rcases hr : rangeItems d items with ⟨ms', _ | p⟩
  · rw [hr] at h
    simpa [rangeStats] using h
  · rw [hr] at h
    simp at h

theorem collectItem_other (d ns rest : String) (ival : Value) (hdot : '.' ∉ ns.data)
    (h1 : ns ≠ "vcpu") (h2 : ns ≠ "cpu") (h3 : ns ≠ "balloon") :
    collectItem d (ns ++ "." ++ rest) ival = .ok [] := by
  unfold collectItem
  simp only [bind, Except.bind, sliceTo_key ns rest hdot]
  simp [h1, h2, h3, pure, Except.pure]

theorem collectItem_vcpu_unknown (d rest : String) (ival : Value)
    (h1 : rest ≠ "maximum") (h2 : rest ≠ "current") :
    collectItem d ("vcpu" ++ "." ++ rest) ival = .ok [] := by
  unfold collectItem
  simp only [bind, Except.bind, sliceTo_key "vcpu" rest (by decide),
    sliceFrom_key "vcpu" rest (by decide)]
  simp [h1, h2, pure, Except.pure]

theorem collectItem_cpu_unknown (d rest : String) (ival : Value)
    (h1 : rest ≠ "user") (h2 : rest ≠ "system") (h3 : rest ≠ "time") :
    collectItem d ("cpu" ++ "." ++ rest) ival = .ok [] := by
  unfold collectItem
  simp only [bind, Except.bind, sliceTo_key "cpu" rest (by decide),
    sliceFrom_key "cpu" rest (by decide)]
  simp [h1, h2, h3, pure, Except.pure]

theorem collectItem_balloon_unknown (d rest : String) (ival : Value)
    (h1 : rest ≠ "last-update") (h2 : rest ≠ "maximum") (h3 : rest ≠ "current")
    (h4 : rest ≠ "rss") :
    collectItem d ("balloon" ++ "." ++ rest) ival
      = .error (.unknownLeaf d ("balloon" ++ "." ++ rest)) := by
  unfold collectItem
  simp only [bind, Except.bind, sliceTo_key "balloon" rest (by decide),
    sliceFrom_key "balloon" rest (by decide)]
  simp [h1, h2, h3, h4, throw, throwThe, MonadExceptOf.throw]

theorem collectItem_no_separator (d ikey : String) (ival : Value) (h : '.' ∉ ikey.data) :
    collectItem d ikey ival = .error .sliceBounds := by
  unfold collectItem
  simp only [bind, Except.bind, sliceTo, stringsIndex, indexChars_not_mem '.' ikey.data h]
  simp

theorem CollectStats_skip (d k : String) (v : Value) (before after : Stats) (pre post : Items)
    (h : collectItem d k v = .ok []) :
    CollectStats (before ++ (d, pre ++ (k, v) :: post) :: after)
      = CollectStats (before ++ (d, pre ++ post) :: after) :=
  CollectStats_congr d _ _ before after (rangeItems_skip d k v pre post h)

theorem CollectStats_panic_at (d k : String) (v : Value) (p : Panic) (before after : Stats)
    (pre post : Items) (ms1 ms2 : List Metric)
    (hbefore : CollectStats before = ⟨ms1, .returned none⟩)
    (hpre : CollectStats [(d, pre)] = ⟨ms2, .returned none⟩)
    (h : collectItem d k v = .error p) :
    CollectStats (before ++ (d, pre ++ (k, v) :: post) :: after)
      = ⟨ms1 ++ ms2, .panicked p⟩ := by
  have hb := CollectStats_returned before ms1 hbefore
  have hp := rangeItems_of_single d pre ms2 (CollectStats_returned _ ms2 hpre)
  have hb2 : (rangeStats before).2 = none := by rw [hb]
  have hp2 : (rangeItems d pre).2 = none := by rw [hp]
  unfold CollectStats
  rw [rangeStats_append_none _ before hb2, rangeStats_cons,
    rangeItems_append_none d _ pre hp2, rangeItems_cons_error d k v p post h, hb, hp]
  simp

theorem collectItem_shape (d k : String) (v : Value) (ms : List Metric)
    (h : collectItem d k v = .ok ms) :
    ∀ m ∈ ms, m.labelValues = [d] ∧ m.desc.variableLabels = ["domain"] := by
  unfold collectItem at h
  simp only [bind, Except.bind, pure, Except.pure, MustNewConstMetric] at h
  intro m hm
  repeat' split at h
  all_goals first
    | (cases h; done)
    | (cases h; simp at hm; done)
    | (rename_i heq
       change Except.ok _ = _ at heq
       cases heq
       cases h
       simp only [List.mem_singleton] at hm
       subst hm
       exact ⟨rfl, rfl⟩)

theorem rangeItems_shape (d : String) :
    ∀ (items : Items), ∀ m ∈ (rangeItems d items).1,
      m.labelValues = [d] ∧ m.desc.variableLabels = ["domain"]
  | [], m, hm => by simp [rangeItems] at hm
  | (k, v) :: rest, m, hm => by
    cases hc : collectItem d k v with
    | error p =>
      rw [rangeItems_cons_error d k v p rest hc] at hm
      simp at hm
    | ok ms =>
      rw [rangeItems_cons_ok d k v ms rest hc] at hm
      rcases List.mem_append.mp hm with h | h
      · exact collectItem_shape d k v ms hc m h
      · exact rangeItems_shape d rest m h

theorem rangeStats_shape :
    ∀ (stats : Stats), ∀ m ∈ (rangeStats stats).1,
      ∃ d ∈ stats.map Prod.fst, m.labelValues = [d] ∧ m.desc.variableLabels = ["domain"]
  | [], m, hm => by simp [rangeStats] at hm
  | (d, items) :: rest, m, hm => by
    rw [rangeStats_cons] at hm
    have hi := rangeItems_shape d items
    rcases hr : rangeItems d items with ⟨ms, _ | p⟩
    · rw [hr] at hm hi
      rcases List.mem_append.mp hm with h | h
      · exact ⟨d, by simp, hi m h⟩
      · obtain ⟨d', hd', hs⟩ := rangeStats_shape rest m h
        exact ⟨d', by simp [hd'], hs⟩
    · rw [hr] at hm hi
      exact ⟨d, by simp, hi m hm⟩

theorem CollectStats_sent (stats : Stats) : (CollectStats stats).sent = (rangeStats stats).1 := by
  unfold CollectStats
  rcases rangeStats stats with ⟨ms, _ | p⟩ <;> rfl

theorem CollectFromLibvirt_shape (env : Libvirt) (uri : String) :
    ∀ m ∈ (CollectFromLibvirt env uri).sent, m.desc.variableLabels = ["domain"] := by
  intro m hm
  unfold CollectFromLibvirt at hm
  split at hm
  · simp at hm
  · split at hm
    · split at hm
      · simp at hm
      · split at hm
        · simp at hm
        · rename_i stats _
          rw [CollectStats_sent] at hm
          obtain ⟨_, _, hs⟩ := rangeStats_shape stats m hm
          exact hs.2
    · simp at hm

theorem CollectFromLibvirt_not_dbus (env : Libvirt) (uri : String) (u : URL)
    (hparse : env.urlParse uri = .ok u) (hscheme : u.Scheme ≠ "dbus") :
    CollectFromLibvirt env uri = ⟨[], .returned (some ("invalid driver: " ++ u.Scheme))⟩ := by
  unfold CollectFromLibvirt parseAndResolve
  rw [hparse]
  simp only [if_neg hscheme]


theorem fieldsChars_no_space : ∀ (l cur : List Char), (∀ c ∈ l, isSpace c = false) →
    fieldsChars cur l = if cur ++ l = [] then [] else [cur ++ l]
  | [], cur, _ => by simp [fieldsChars]
  | c :: cs, cur, h => by
    have hc : isSpace c = false := h c (List.mem_cons_self _ _)
    have hcs : ∀ x ∈ cs, isSpace x = false := fun x hx => h x (List.mem_cons_of_mem _ hx)
    rw [fieldsChars]
    simp only [hc, Bool.false_eq_true, if_false]
    rw [fieldsChars_no_space cs (cur ++ [c]) hcs]
    simp

theorem stringsFields_no_space (s sep : String) (h : ∀ c ∈ s.data, isSpace c = false) :
    (stringsFields s sep).length ≤ 1 := by
  unfold stringsFields
  rw [fieldsChars_no_space s.data [] h]
  split <;> simp

theorem resolveTarget_no_space (hyperDefault scheme : String)
    (h : ∀ c ∈ scheme.data, isSpace c = false) :
    resolveTarget hyperDefault scheme = ⟨"auto", hyperDefault, ""⟩ := by
  have hlen := stringsFields_no_space scheme "+" h
  unfold resolveTarget
  simp only
  rw [if_neg (by omega), if_neg (by omega)]

/-! ## the value transforms of `CollectStats` -/

/-- **C1.** An entry `cpu.user`, `cpu.system` or `cpu.time` of domain `d` that
holds the unsigned 64-bit value `v` makes the loop send exactly one metric for
the entry and go on with the remaining entries: the user, system or total cpu
time descriptor, of kind counter, labelled with `d` alone, with the float64
value `float64(v) / 1e9`. That value is the quotient `v / 10 ^ 9` up to the
relative rounding error `2 ^ (-51)` of the two float64 operations, it is the
quotient itself whenever `v ≤ 2 ^ 53` is a multiple of `10 ^ 9`, and it is
finite (below `2 ^ 35`). -/
theorem C1_cpu_times_counter_seconds (d : String) (v : Nat) (hv : v < 2 ^ 64) :
    (∀ rest : Items, rangeItems d (("cpu.user", Value.uint64 v) :: rest)
      = (⟨libvirtDomainCpuUserDesc, .CounterValue, F64.div (F64.ofNat v) f1e9, [d]⟩
          :: (rangeItems d rest).1, (rangeItems d rest).2))
    ∧ (∀ rest : Items, rangeItems d (("cpu.system", Value.uint64 v) :: rest)
      = (⟨libvirtDomainCpuSystemDesc, .CounterValue, F64.div (F64.ofNat v) f1e9, [d]⟩
          :: (rangeItems d rest).1, (rangeItems d rest).2))
    ∧ (∀ rest : Items, rangeItems d (("cpu.time", Value.uint64 v) :: rest)
      = (⟨libvirtDomainCpuTimeDesc, .CounterValue, F64.div (F64.ofNat v) f1e9, [d]⟩
          :: (rangeItems d rest).1, (rangeItems d rest).2))
    ∧ CollectStats [(d, [("cpu.user", Value.uint64 v)])]
      = ⟨[⟨libvirtDomainCpuUserDesc, .CounterValue, F64.div (F64.ofNat v) f1e9, [d]⟩],
          .returned none⟩
    ∧ CollectStats [(d, [("cpu.system", Value.uint64 v)])]
      = ⟨[⟨libvirtDomainCpuSystemDesc, .CounterValue, F64.div (F64.ofNat v) f1e9, [d]⟩],
          .returned none⟩
    ∧ CollectStats [(d, [("cpu.time", Value.uint64 v)])]
      = ⟨[⟨libvirtDomainCpuTimeDesc, .CounterValue, F64.div (F64.ofNat v) f1e9, [d]⟩],
          .returned none⟩
    ∧ |(F64.div (F64.ofNat v) f1e9).toRat - (v : ℚ) / 10 ^ 9| ≤ (v : ℚ) / 10 ^ 9 / 2 ^ 51
    ∧ (∀ s : Nat, v = s * 10 ^ 9 → v ≤ 2 ^ 53 → (F64.div (F64.ofNat v) f1e9).toRat = (s : ℚ))
    ∧ (F64.div (F64.ofNat v) f1e9).toRat < 2 ^ 35 := by
  have herr : |(F64.div (F64.ofNat v) f1e9).toRat - (v : ℚ) / 10 ^ 9|
      ≤ (v : ℚ) / 10 ^ 9 / 2 ^ 51 := by
    have h := F64.div_ofNat_error v 1000000000 (by norm_num) (by norm_num)
    norm_num at h ⊢
    exact h
  refine ⟨fun rest => rfl, fun rest => rfl, fun rest => rfl, rfl, rfl, rfl, herr, ?_, ?_⟩
  · intro s hs h53
    have h := F64.div_ofNat_exact v 1000000000 s (by norm_num) (by norm_num) h53
      (by rw [hs]; norm_num)
    exact h
  · have hvq : (v : ℚ) < 18446744073709551616 := by exact_mod_cast hv
    have h0 : (0 : ℚ) ≤ v := Nat.cast_nonneg v
    have h := (abs_le.mp herr).2
    norm_num at h ⊢
    linarith

/-- Witness of C1: `cpu.user = 5000000000` nanoseconds gives the counter value
`5.0`, labelled with the domain alone. -/
theorem C1_cpu_times_counter_seconds_witness :
    5000000000 < 2 ^ 64
    ∧ CollectStats [("vm1", [("cpu.user", Value.uint64 5000000000)])]
      = ⟨[⟨libvirtDomainCpuUserDesc, .CounterValue, ⟨5, 0⟩, ["vm1"]⟩], .returned none⟩
    ∧ (⟨5, 0⟩ : F64).toRat = 5
    ∧ libvirtDomainCpuUserDesc.variableLabels = ["domain"] := by
  have h := C1_cpu_times_counter_seconds "vm1" 5000000000 (by decide)
  refine ⟨by decide, ?_, by simp [F64.toRat], rfl⟩
  have e : F64.div (F64.ofNat 5000000000) f1e9 = ⟨5, 0⟩ := by decide
  rw [← e]
  exact h.2.2.2.1

/-- **C2.** An entry `balloon.maximum`, `balloon.current` or `balloon.rss` of
domain `d` that holds the unsigned 64-bit value `v` makes the loop send
exactly one metric for the entry and go on with the remaining entries: the
memory maximum, current or resident descriptor, of kind gauge, labelled with
`d` alone, with the float64 value `float64(v) * 1024`. The product by `1024`
is exact, so the value is `v * 1024` whenever `float64(v)` is `v` (every
`v ≤ 2 ^ 53`), and in general `v * 1024` up to the relative rounding error
`2 ^ (-53)` of the conversion; it is finite (at most `2 ^ 75`). -/
theorem C2_balloon_gauge_bytes (d : String) (v : Nat) (hv : v < 2 ^ 64) :
    (∀ rest : Items, rangeItems d (("balloon.maximum", Value.uint64 v) :: rest)
      = (⟨libvirtDomainMemoryMaximumDesc, .GaugeValue, F64.mul (F64.ofNat v) f1024, [d]⟩
          :: (rangeItems d rest).1, (rangeItems d rest).2))
    ∧ (∀ rest : Items, rangeItems d (("balloon.current", Value.uint64 v) :: rest)
      = (⟨libvirtDomainMemoryCurrentDesc, .GaugeValue, F64.mul (F64.ofNat v) f1024, [d]⟩
          :: (rangeItems d rest).1, (rangeItems d rest).2))
    ∧ (∀ rest : Items, rangeItems d (("balloon.rss", Value.uint64 v) :: rest)
      = (⟨libvirtDomainMemoryResidentDesc, .GaugeValue, F64.mul (F64.ofNat v) f1024, [d]⟩
          :: (rangeItems d rest).1, (rangeItems d rest).2))
    ∧ CollectStats [(d, [("balloon.maximum", Value.uint64 v)])]
      = ⟨[⟨libvirtDomainMemoryMaximumDesc, .GaugeValue, F64.mul (F64.ofNat v) f1024, [d]⟩],
          .returned none⟩
    ∧ CollectStats [(d, [("balloon.current", Value.uint64 v)])]
      = ⟨[⟨libvirtDomainMemoryCurrentDesc, .GaugeValue, F64.mul (F64.ofNat v) f1024, [d]⟩],
          .returned none⟩
    ∧ CollectStats [(d, [("balloon.rss", Value.uint64 v)])]
      = ⟨[⟨libvirtDomainMemoryResidentDesc, .GaugeValue, F64.mul (F64.ofNat v) f1024, [d]⟩],
          .returned none⟩
    ∧ (F64.mul (F64.ofNat v) f1024).toRat = (F64.ofNat v).toRat * 1024
    ∧ (v ≤ 2 ^ 53 → (F64.mul (F64.ofNat v) f1024).toRat = (v : ℚ) * 1024)
    ∧ |(F64.mul (F64.ofNat v) f1024).toRat - (v : ℚ) * 1024| ≤ (v : ℚ) * 1024 / 2 ^ 53
    ∧ (F64.mul (F64.ofNat v) f1024).toRat ≤ 2 ^ 75 := by
  have e1024 : f1024 = ⟨1, 10⟩ := by decide
  have hmul : (F64.mul (F64.ofNat v) f1024).toRat = (F64.ofNat v).toRat * 1024 := by
    have h := F64.mul_ofNat_exact v 10
    simp only [Nat.cast_ofNat] at h
    rw [e1024, h]
    norm_num
  have herr := F64.ofNat_error v
  have hvq : (v : ℚ) < 18446744073709551616 := by exact_mod_cast hv
  have h0 : (0 : ℚ) ≤ v := Nat.cast_nonneg v
  refine ⟨fun rest => rfl, fun rest => rfl, fun rest => rfl, rfl, rfl, rfl, hmul, ?_, ?_, ?_⟩
  · intro h53
    rw [hmul, F64.toRat_ofNat v h53]
  · rw [hmul, abs_le] at *
    constructor
    · have := herr.1
      linarith
    · have := herr.2
      linarith
  · rw [hmul]
    have := (abs_le.mp herr).2
    norm_num at this ⊢
    linarith

/-- Witness of C2: `balloon.maximum = 2048` KiB gives the gauge value
`2097152` bytes (`1 * 2 ^ 21`), labelled with the domain alone. -/
theorem C2_balloon_gauge_bytes_witness :
    2048 < 2 ^ 64
    ∧ CollectStats [("vm1", [("balloon.maximum", Value.uint64 2048)])]
      = ⟨[⟨libvirtDomainMemoryMaximumDesc, .GaugeValue, ⟨1, 21⟩, ["vm1"]⟩], .returned none⟩
    ∧ (⟨1, 21⟩ : F64).toRat = 2097152
    ∧ libvirtDomainMemoryMaximumDesc.variableLabels = ["domain"] := by
  have h := C2_balloon_gauge_bytes "vm1" 2048 (by decide)
  refine ⟨by decide, ?_, by norm_num [F64.toRat], rfl⟩
  have e : F64.mul (F64.ofNat 2048) f1024 = ⟨1, 21⟩ := by decide
  rw [← e]
  exact h.2.2.2.1

/-- **C3.** An entry `vcpu.current` (resp. `vcpu.maximum`) of domain `d` that
holds the unsigned 32-bit value `v` makes the loop send exactly one metric for
the entry and go on with the remaining entries: the vcpu current (resp.
maximum) descriptor, of kind gauge, with the float64 value `float64(v)`, which
is `v` itself, and with the single label value `d`. -/
theorem C3_vcpu_gauge_identity (d : String) (v : Nat) (hv : v < 2 ^ 32) :
    (∀ rest : Items, rangeItems d (("vcpu.current", Value.uint32 v) :: rest)
      = (⟨libvirtDomainVcpuCurrentDesc, .GaugeValue, F64.ofNat v, [d]⟩
          :: (rangeItems d rest).1, (rangeItems d rest).2))
    ∧ (∀ rest : Items, rangeItems d (("vcpu.maximum", Value.uint32 v) :: rest)
      = (⟨libvirtDomainVcpuMaximumDesc, .GaugeValue, F64.ofNat v, [d]⟩
          :: (rangeItems d rest).1, (rangeItems d rest).2))
    ∧ CollectStats [(d, [("vcpu.current", Value.uint32 v)])]
      = ⟨[⟨libvirtDomainVcpuCurrentDesc, .GaugeValue, F64.ofNat v, [d]⟩], .returned none⟩
    ∧ CollectStats [(d, [("vcpu.maximum", Value.uint32 v)])]
      = ⟨[⟨libvirtDomainVcpuMaximumDesc, .GaugeValue, F64.ofNat v, [d]⟩], .returned none⟩
    ∧ (F64.ofNat v).toRat = (v : ℚ)
    ∧ libvirtDomainVcpuCurrentDesc.variableLabels = ["domain"]
    ∧ libvirtDomainVcpuMaximumDesc.variableLabels = ["domain"] := by
  refine ⟨fun rest => rfl, fun rest => rfl, rfl, rfl, ?_, rfl, rfl⟩
  exact F64.toRat_ofNat v (by omega)

/-- Witness of C3: `vcpu.current = 4` gives the gauge value `4.0`
(`1 * 2 ^ 2`) with the label values `[d]`. -/
theorem C3_vcpu_gauge_identity_witness :
    4 < 2 ^ 32
    ∧ CollectStats [("vm1", [("vcpu.current", Value.uint32 4)])]
      = ⟨[⟨libvirtDomainVcpuCurrentDesc, .GaugeValue, ⟨1, 2⟩, ["vm1"]⟩], .returned none⟩
    ∧ (⟨1, 2⟩ : F64).toRat = 4 := by
  have h := C3_vcpu_gauge_identity "vm1" 4 (by decide)
  refine ⟨by decide, ?_, by norm_num [F64.toRat]⟩
  have e : F64.ofNat 4 = ⟨1, 2⟩ := by decide
  rw [← e]
  exact h.2.2.1

/-! ## entries that are malformed, unknown or without separator -/

/-- **C4, counterexample.** `cpu.user` holding a string does not get skipped:
the call panics on the type assertion and the later entry `cpu.time` of the
same domain, which alone gives one metric, is never processed. The same
happens for `vcpu.current` holding a 64-bit integer. -/
theorem C4_counterexample :
    CollectStats [("vm1", [("cpu.user", Value.string "x"),
        ("cpu.time", Value.uint64 1000000000)])]
      = ⟨[], .panicked .typeAssertion⟩
    ∧ CollectStats [("vm1", [("cpu.time", Value.uint64 1000000000)])]
      = ⟨[⟨libvirtDomainCpuTimeDesc, .CounterValue, ⟨1, 0⟩, ["vm1"]⟩], .returned none⟩
    ∧ CollectStats [("vm1", [("vcpu.current", Value.uint64 4),
        ("cpu.time", Value.uint64 1000000000)])]
      = ⟨[], .panicked .typeAssertion⟩ := by
  decide

/-- **C4, amended.** An entry with one of the nine handled keys whose value
has another dynamic type than the one asserted for the key (`uint32` for the
`vcpu` keys, `uint64` for the `cpu` and `balloon` keys) is not skipped: when
the loops reach it the type assertion panics and the call ends there. The
metrics sent are exactly those of the entries visited before it (`ms1` for the
domains before, `ms2` for the earlier entries of the same domain), and no
later entry or domain is processed. -/
theorem C4_type_mismatch_panics (d key : String) (ival : Value) (before after : Stats)
    (pre post : Items) (ms1 ms2 : List Metric)
    (hkey : (key ∈ ["vcpu.maximum", "vcpu.current"] ∧ ∀ n, ival ≠ Value.uint32 n)
      ∨ (key ∈ ["cpu.user", "cpu.system", "cpu.time", "balloon.last-update",
          "balloon.maximum", "balloon.current", "balloon.rss"] ∧ ∀ n, ival ≠ Value.uint64 n))
    (hbefore : CollectStats before = ⟨ms1, .returned none⟩)
    (hpre : CollectStats [(d, pre)] = ⟨ms2, .returned none⟩) :
    collectItem d key ival = .error .typeAssertion
    ∧ CollectStats (before ++ (d, pre ++ (key, ival) :: post) :: after)
      = ⟨ms1 ++ ms2, .panicked .typeAssertion⟩ := by
  have hitem : collectItem d key ival = .error .typeAssertion := by
    rcases hkey with ⟨hk, hv⟩ | ⟨hk, hv⟩
    · simp only [List.mem_cons, List.mem_singleton, List.not_mem_nil, or_false] at hk
      rcases hk with rfl | rfl <;> cases ival <;>
        first
        | rfl
        | exact absurd rfl (hv _)
    · simp only [List.mem_cons, List.mem_singleton, List.not_mem_nil, or_false] at hk
      rcases hk with rfl | rfl | rfl | rfl | rfl | rfl | rfl <;> cases ival <;>
        first
        | rfl
        | exact absurd rfl (hv _)
  exact ⟨hitem, CollectStats_panic_at d key ival _ before after pre post ms1 ms2 hbefore hpre hitem⟩

/-- Witness of C4 (amended): after `cpu.time` of an earlier domain and
`vcpu.current` of the same domain have been sent, `cpu.user` holding a string
panics; `cpu.system` and the last domain are not processed. -/
theorem C4_type_mismatch_panics_witness :
    CollectStats ([("vm0", [("cpu.time", Value.uint64 1000000000)])]
        ++ ("vm1", [("vcpu.current", Value.uint32 4)]
            ++ ("cpu.user", Value.string "x") :: [("cpu.system", Value.uint64 0)])
          :: [("vm2", [("vcpu.maximum", Value.uint32 8)])])
      = ⟨[⟨libvirtDomainCpuTimeDesc, .CounterValue, ⟨1, 0⟩, ["vm0"]⟩]
          ++ [⟨libvirtDomainVcpuCurrentDesc, .GaugeValue, ⟨1, 2⟩, ["vm1"]⟩],
        .panicked .typeAssertion⟩ :=
  (C4_type_mismatch_panics "vm1" "cpu.user" (Value.string "x")
    [("vm0", [("cpu.time", Value.uint64 1000000000)])]
    [("vm2", [("vcpu.maximum", Value.uint32 8)])]
    [("vcpu.current", Value.uint32 4)] [("cpu.system", Value.uint64 0)]
    [⟨libvirtDomainCpuTimeDesc, .CounterValue, ⟨1, 0⟩, ["vm0"]⟩]
    [⟨libvirtDomainVcpuCurrentDesc, .GaugeValue, ⟨1, 2⟩, ["vm1"]⟩]
    (Or.inr ⟨by decide, fun n h => by cases h⟩) (by decide) (by decide)).2

/-- **C5, counterexample.** An unknown leaf in the namespace `balloon` is not
skipped: `balloon.foo` makes the call panic, and the later entry `cpu.time`,
which alone gives one metric, is never processed. -/
theorem C5_counterexample :
    CollectStats [("vm1", [("balloon.foo", Value.uint64 1),
        ("cpu.time", Value.uint64 1000000000)])]
      = ⟨[], .panicked (.unknownLeaf "vm1" "balloon.foo")⟩
    ∧ CollectStats [("vm1", [("cpu.time", Value.uint64 1000000000)])]
      = ⟨[⟨libvirtDomainCpuTimeDesc, .CounterValue, ⟨1, 0⟩, ["vm1"]⟩], .returned none⟩ := by
  decide

/-- **C5, amended.** An entry of namespace `vcpu` or `cpu` whose remainder
after the first `.` is not a leaf handled for that namespace sends nothing and
does not end the call: the run is the run of the snapshot without the entry.
An entry of namespace `balloon` whose remainder is not a handled leaf ends the
call with the explicit panic of the default branch. -/
theorem C5_unknown_leaf (d rest : String) (ival : Value) (before after : Stats)
    (pre post : Items) :
    (rest ≠ "maximum" → rest ≠ "current" →
      collectItem d ("vcpu" ++ "." ++ rest) ival = .ok []
      ∧ CollectStats (before ++ (d, pre ++ ("vcpu" ++ "." ++ rest, ival) :: post) :: after)
        = CollectStats (before ++ (d, pre ++ post) :: after))
    ∧ (rest ≠ "user" → rest ≠ "system" → rest ≠ "time" →
      collectItem d ("cpu" ++ "." ++ rest) ival = .ok []
      ∧ CollectStats (before ++ (d, pre ++ ("cpu" ++ "." ++ rest, ival) :: post) :: after)
        = CollectStats (before ++ (d, pre ++ post) :: after))
    ∧ (rest ≠ "last-update" → rest ≠ "maximum" → rest ≠ "current" → rest ≠ "rss" →
      collectItem d ("balloon" ++ "." ++ rest) ival
        = .error (.unknownLeaf d ("balloon" ++ "." ++ rest))) := by
  refine ⟨fun h1 h2 => ?_, fun h1 h2 h3 => ?_, fun h1 h2 h3 h4 => ?_⟩
  · have h := collectItem_vcpu_unknown d rest ival h1 h2
    exact ⟨h, CollectStats_skip d _ ival before after pre post h⟩
  · have h := collectItem_cpu_unknown d rest ival h1 h2 h3
    exact ⟨h, CollectStats_skip d _ ival before after pre post h⟩
  · exact collectItem_balloon_unknown d rest ival h1 h2 h3 h4

/-- Witness of C5 (amended): `vcpu.foo` and `cpu.foo` between two handled
entries leave the run unchanged; `balloon.foo` panics. -/
theorem C5_unknown_leaf_witness :
    (CollectStats ([] ++ ("vm1", [("cpu.time", Value.uint64 1000000000)]
        ++ ("vcpu" ++ "." ++ "foo", Value.uint32 1) :: [("vcpu.current", Value.uint32 4)]) :: [])
      = CollectStats ([] ++ ("vm1", [("cpu.time", Value.uint64 1000000000)]
        ++ [("vcpu.current", Value.uint32 4)]) :: []))
    ∧ (CollectStats ([] ++ ("vm1", [("cpu.time", Value.uint64 1000000000)]
        ++ ("cpu" ++ "." ++ "foo", Value.uint32 1) :: [("vcpu.current", Value.uint32 4)]) :: [])
      = CollectStats ([] ++ ("vm1", [("cpu.time", Value.uint64 1000000000)]
        ++ [("vcpu.current", Value.uint32 4)]) :: []))
    ∧ collectItem "vm1" ("balloon" ++ "." ++ "foo") (Value.uint32 1)
      = .error (.unknownLeaf "vm1" ("balloon" ++ "." ++ "foo")) :=
  have h := C5_unknown_leaf "vm1" "foo" (Value.uint32 1) [] []
    [("cpu.time", Value.uint64 1000000000)] [("vcpu.current", Value.uint32 4)]
  ⟨(h.1 (by decide) (by decide)).2, (h.2.1 (by decide) (by decide) (by decide)).2,
    h.2.2 (by decide) (by decide) (by decide) (by decide)⟩

/-- **C6, the code at the failing input.** A key without `.` is not treated as
a classification error: `strings.Index` gives `-1`, the slice `ikey[:idx]` is
out of range and the call panics. This holds for `nodot` and for the empty
key, also after a handled entry has been sent, and the entries after the key
are never processed. -/
theorem C6_no_separator_panics :
    stringsIndex "nodot" '.' = -1
    ∧ stringsIndex "" '.' = -1
    ∧ sliceTo "nodot" (stringsIndex "nodot" '.') = .error .sliceBounds
    ∧ CollectStats [("vm1", [("nodot", Value.uint64 1)])] = ⟨[], .panicked .sliceBounds⟩
    ∧ CollectStats [("vm1", [("", Value.uint64 1)])] = ⟨[], .panicked .sliceBounds⟩
    ∧ CollectStats [("vm1", [("cpu.time", Value.uint64 1000000000), ("nodot", Value.uint64 1),
        ("vcpu.current", Value.uint32 4)])]
      = ⟨[⟨libvirtDomainCpuTimeDesc, .CounterValue, ⟨1, 0⟩, ["vm1"]⟩],
          .panicked .sliceBounds⟩ := by
  decide

/-- **C7.** An entry whose key has a namespace (the characters before the
first `.`) other than `vcpu`, `cpu` and `balloon` sends no metric, and the run
of the snapshot is the run of the snapshot without the entry: the same metrics
sent, in the same order, and the same end of the call. -/
theorem C7_unknown_namespace_skipped (d ns rest : String) (ival : Value)
    (before after : Stats) (pre post : Items) (hdot : '.' ∉ ns.data)
    (hns : ns ≠ "vcpu" ∧ ns ≠ "cpu" ∧ ns ≠ "balloon") :
    collectItem d (ns ++ "." ++ rest) ival = .ok []
    ∧ rangeItems d ((ns ++ "." ++ rest, ival) :: post) = rangeItems d post
    ∧ CollectStats (before ++ (d, pre ++ (ns ++ "." ++ rest, ival) :: post) :: after)
      = CollectStats (before ++ (d, pre ++ post) :: after) := by
  have h := collectItem_other d ns rest ival hdot hns.1 hns.2.1 hns.2.2
  exact ⟨h, rangeItems_skip d _ ival [] post h, CollectStats_skip d _ ival before after pre post h⟩

/-- Witness of C7: `foo.bar = 1` between `cpu.time` and `vcpu.current` sends
nothing, and the two handled entries are sent as without it. -/
theorem C7_unknown_namespace_skipped_witness :
    '.' ∉ "foo".data ∧ ("foo" ≠ "vcpu" ∧ "foo" ≠ "cpu" ∧ "foo" ≠ "balloon")
    ∧ "foo" ++ "." ++ "bar" = "foo.bar"
    ∧ collectItem "vm1" ("foo" ++ "." ++ "bar") (Value.uint64 1) = .ok []
    ∧ CollectStats ([] ++ ("vm1", [("cpu.time", Value.uint64 1000000000)]
        ++ ("foo" ++ "." ++ "bar", Value.uint64 1) :: [("vcpu.current", Value.uint32 4)]) :: [])
      = CollectStats ([] ++ ("vm1", [("cpu.time", Value.uint64 1000000000)]
        ++ [("vcpu.current", Value.uint32 4)]) :: []) :=
  have h := C7_unknown_namespace_skipped "vm1" "foo" "bar" (Value.uint64 1) [] []
    [("cpu.time", Value.uint64 1000000000)] [("vcpu.current", Value.uint32 4)]
    (by decide) (by decide)
  ⟨by decide, by decide, by decide, h.1, h.2.2⟩

/-! ## the liveness gauge and the target resolution -/

/-- **C8, counterexample.** A scrape whose snapshot holds the libvirt key
`balloon.unused` panics in `CollectStats`; `Collect` has no `recover`, so the
call ends with that panic and sends no `libvirt_up` metric at all. -/
theorem C8_counterexample :
    LibvirtExporter.Collect
        (connected ⟨"dbus"⟩ [("vm1", [("cpu.time", Value.uint64 1000000000),
          ("balloon.unused", Value.uint64 1)])]) ⟨"dbus:///system"⟩
      = ⟨[⟨libvirtDomainCpuTimeDesc, .CounterValue, ⟨1, 0⟩, ["vm1"]⟩],
          .panicked (.unknownLeaf "vm1" "balloon.unused")⟩
    ∧ (LibvirtExporter.Collect
        (connected ⟨"dbus"⟩ [("vm1", [("cpu.time", Value.uint64 1000000000),
          ("balloon.unused", Value.uint64 1)])]) ⟨"dbus:///system"⟩).sent.filter
        (fun m => decide (m.desc = libvirtUpDesc)) = [] := by
  decide

/-- **C8, amended.** Every call of `Collect` in which `CollectFromLibvirt`
returns sends exactly one `libvirt_up` metric: a gauge without label values,
with value `1` if the scrape returned no error and `0` if it returned an
error, sent after every metric of the scrape; the call then ends normally. -/
theorem C8_liveness_when_scrape_returns (env : Libvirt) (e : LibvirtExporter)
    (err : Option String)
    (h : (CollectFromLibvirt env e.uri).outcome = .returned err) :
    LibvirtExporter.Collect env e
      = ⟨(CollectFromLibvirt env e.uri).sent
          ++ [⟨libvirtUpDesc, .GaugeValue, if err = none then ⟨1, 0⟩ else ⟨0, 0⟩, []⟩],
        .returned none⟩
    ∧ ((LibvirtExporter.Collect env e).sent.filter
        (fun m => decide (m.desc = libvirtUpDesc))).length = 1
    ∧ (∀ m ∈ (CollectFromLibvirt env e.uri).sent, m.desc ≠ libvirtUpDesc)
    ∧ libvirtUpDesc.fqName = "libvirt_up"
    ∧ libvirtUpDesc.variableLabels = []
    ∧ (⟨1, 0⟩ : F64).toRat = 1 ∧ (⟨0, 0⟩ : F64).toRat = 0 := by
  have hne : ∀ m ∈ (CollectFromLibvirt env e.uri).sent, m.desc ≠ libvirtUpDesc := by
    intro m hm heq
    have hs := CollectFromLibvirt_shape env e.uri m hm
    rw [heq] at hs
    exact absurd hs (by decide)
  have hrun : LibvirtExporter.Collect env e
      = ⟨(CollectFromLibvirt env e.uri).sent
          ++ [⟨libvirtUpDesc, .GaugeValue, if err = none then ⟨1, 0⟩ else ⟨0, 0⟩, []⟩],
        .returned none⟩ := by
    unfold LibvirtExporter.Collect
    simp only [h]
    cases err <;> rfl
  refine ⟨hrun, ?_, hne, by decide, rfl, by simp [F64.toRat], by simp [F64.toRat]⟩
  rw [hrun]
  simp only [List.filter_append]
  have hnil : (CollectFromLibvirt env e.uri).sent.filter
      (fun m => decide (m.desc = libvirtUpDesc)) = [] := by
    rw [List.filter_eq_nil_iff]
    intro m hm
    simpa using hne m hm
  rw [hnil]
  simp

/-- Witness of C8 (amended): a scrape over `dbus` that returns no error sends
its metric and then `libvirt_up = 1`; a scrape that returns the error
`invalid driver: qemu` sends `libvirt_up = 0` alone. -/
theorem C8_liveness_when_scrape_returns_witness :
    LibvirtExporter.Collect
        (connected ⟨"dbus"⟩ [("vm1", [("cpu.time", Value.uint64 1000000000)])])
        ⟨"dbus:///system"⟩
      = ⟨[⟨libvirtDomainCpuTimeDesc, .CounterValue, ⟨1, 0⟩, ["vm1"]⟩,
          ⟨libvirtUpDesc, .GaugeValue, ⟨1, 0⟩, []⟩], .returned none⟩
    ∧ LibvirtExporter.Collect (connected ⟨"qemu"⟩ []) ⟨"qemu:///system"⟩
      = ⟨[⟨libvirtUpDesc, .GaugeValue, ⟨0, 0⟩, []⟩], .returned none⟩ :=
  ⟨(C8_liveness_when_scrape_returns
      (connected ⟨"dbus"⟩ [("vm1", [("cpu.time", Value.uint64 1000000000)])])
      ⟨"dbus:///system"⟩ none (by decide)).1,
    (C8_liveness_when_scrape_returns (connected ⟨"qemu"⟩ []) ⟨"qemu:///system"⟩
      (some "invalid driver: qemu") (by decide)).1⟩

/-- **C9, the code at the failing inputs.** `strings.Fields` splits around
white space, not around `+`: the scheme `qemu+tcp` is one field and so is
`plain+qemu+tcp`, although they have two and three segments between `+`. The
switch on the number of fields therefore takes its default branch for both:
the driver is `auto`, the hypervisor is whatever the default branch assigns and
the transport keeps its zero value, instead of (`auto`, `qemu`, `tcp`) and
(`plain`, `qemu`, `tcp`). -/
theorem C9_fields_do_not_split_on_plus (hyperDefault : String) :
    plusSegments "qemu+tcp" = ["qemu", "tcp"]
    ∧ stringsFields "qemu+tcp" "+" = ["qemu+tcp"]
    ∧ resolveTarget hyperDefault "qemu+tcp" = ⟨"auto", hyperDefault, ""⟩
    ∧ resolveTarget hyperDefault "qemu+tcp" ≠ ⟨"auto", "qemu", "tcp"⟩
    ∧ plusSegments "plain+qemu+tcp" = ["plain", "qemu", "tcp"]
    ∧ stringsFields "plain+qemu+tcp" "+" = ["plain+qemu+tcp"]
    ∧ resolveTarget hyperDefault "plain+qemu+tcp" = ⟨"auto", hyperDefault, ""⟩
    ∧ resolveTarget hyperDefault "plain+qemu+tcp" ≠ ⟨"plain", "qemu", "tcp"⟩
    ∧ parseAndResolve (connected ⟨"qemu+tcp"⟩ []) "qemu+tcp://host/system"
      = .ok (⟨"qemu+tcp"⟩, ⟨"auto", "", ""⟩)
    ∧ parseAndResolve (connected ⟨"plain+qemu+tcp"⟩ []) "plain+qemu+tcp://host/system"
      = .ok (⟨"plain+qemu+tcp"⟩, ⟨"auto", "", ""⟩) := by
  have h2 : resolveTarget hyperDefault "qemu+tcp" = ⟨"auto", hyperDefault, ""⟩ :=
    resolveTarget_no_space hyperDefault "qemu+tcp" (by decide)
  have h3 : resolveTarget hyperDefault "plain+qemu+tcp" = ⟨"auto", hyperDefault, ""⟩ :=
    resolveTarget_no_space hyperDefault "plain+qemu+tcp" (by decide)
  refine ⟨by decide, by decide, h2, ?_, by decide, by decide, h3, ?_, by decide, by decide⟩
  · rw [h2]
    intro h
    have hp : ("" : String) = "tcp" := congrArg Target.proto h
    exact absurd hp (by decide)
  · rw [h3]
    intro h
    have hp : ("" : String) = "tcp" := congrArg Target.proto h
    exact absurd hp (by decide)

/-- **C10, counterexample.** The scheme `dbus` has one segment and is not
rejected: its scrape runs `CollectStats`. The schemes `qemu+tcp` and
`plain+qemu+tcp` have two and three segments and are rejected with the error
`invalid driver:` followed by the scheme. -/
theorem C10_counterexample :
    plusSegments "dbus" = ["dbus"]
    ∧ CollectFromLibvirt (connected ⟨"dbus"⟩ [("vm1", [("vcpu.current", Value.uint32 4)])])
        "dbus:///system"
      = ⟨[⟨libvirtDomainVcpuCurrentDesc, .GaugeValue, ⟨1, 2⟩, ["vm1"]⟩], .returned none⟩
    ∧ plusSegments "qemu+tcp" = ["qemu", "tcp"]
    ∧ CollectFromLibvirt (connected ⟨"qemu+tcp"⟩ []) "qemu+tcp://host/system"
      = ⟨[], .returned (some "invalid driver: qemu+tcp")⟩
    ∧ plusSegments "plain+qemu+tcp" = ["plain", "qemu", "tcp"]
    ∧ CollectFromLibvirt (connected ⟨"plain+qemu+tcp"⟩ []) "plain+qemu+tcp://host/system"
      = ⟨[], .returned (some "invalid driver: plain+qemu+tcp")⟩ := by
  decide

/-- **C10, amended.** When the URI parses, `CollectFromLibvirt` fails with the
error `invalid driver:` followed by the scheme for every scheme other than
`dbus`, however many segments the scheme has, and sends nothing; the switch on
the number of fields rejects nothing. For the scheme `dbus` no such rejection
takes place: the run is that of the connection, the fetch of the snapshot and
`CollectStats`. -/
theorem C10_rejected_unless_dbus (env : Libvirt) (uri : String) (u : URL)
    (hparse : env.urlParse uri = .ok u) :
    (u.Scheme ≠ "dbus" →
      CollectFromLibvirt env uri = ⟨[], .returned (some ("invalid driver: " ++ u.Scheme))⟩)
    ∧ (u.Scheme = "dbus" →
      CollectFromLibvirt env uri
        = match env.connect with
          | some err => ⟨[], .returned (some err)⟩
          | none =>
            match env.connectGetAllDomainStats with
            | .error err => ⟨[], .returned (some err)⟩
            | .ok stats => CollectStats stats) := by
  constructor
  · intro hne
    exact CollectFromLibvirt_not_dbus env uri u hparse hne
  · intro heq
    unfold CollectFromLibvirt parseAndResolve
    rw [hparse]
    simp only [if_pos heq]

/-- Witness of C10 (amended): the one-segment schemes `bogus` and `qemu` (the
default of the command line) are rejected like the two-segment scheme
`qemu+tcp`, each error carrying the scheme; `dbus` is not rejected. -/
theorem C10_rejected_unless_dbus_witness :
    CollectFromLibvirt (connected ⟨"bogus"⟩ []) "bogus://host"
      = ⟨[], .returned (some "invalid driver: bogus")⟩
    ∧ CollectFromLibvirt (connected ⟨"qemu"⟩ []) "qemu:///system"
      = ⟨[], .returned (some "invalid driver: qemu")⟩
    ∧ CollectFromLibvirt (connected ⟨"qemu+tcp"⟩ []) "qemu+tcp://host/system"
      = ⟨[], .returned (some "invalid driver: qemu+tcp")⟩
    ∧ CollectFromLibvirt (connected ⟨"dbus"⟩ [("vm1", [("vcpu.current", Value.uint32 4)])])
        "dbus:///system"
      = CollectStats [("vm1", [("vcpu.current", Value.uint32 4)])] :=
  ⟨(C10_rejected_unless_dbus (connected ⟨"bogus"⟩ []) "bogus://host" ⟨"bogus"⟩ rfl).1
      (by decide),
    (C10_rejected_unless_dbus (connected ⟨"qemu"⟩ []) "qemu:///system" ⟨"qemu"⟩ rfl).1
      (by decide),
    (C10_rejected_unless_dbus (connected ⟨"qemu+tcp"⟩ []) "qemu+tcp://host/system"
      ⟨"qemu+tcp"⟩ rfl).1 (by decide),
    (C10_rejected_unless_dbus
      (connected ⟨"dbus"⟩ [("vm1", [("vcpu.current", Value.uint32 4)])]) "dbus:///system"
      ⟨"dbus"⟩ rfl).2 rfl⟩

/-! ## lemmas on the visit as one sequence of entries -/

theorem rangeEntries_cons_ok (d k : String) (v : Value) (ms : List Metric) (rest : List Entry)
    (h : collectItem d k v = .ok ms) :
    rangeEntries ((d, k, v) :: rest) = (ms ++ (rangeEntries rest).1, (rangeEntries rest).2) := by
  rw [rangeEntries, h]

theorem rangeEntries_cons_error (d k : String) (v : Value) (p : Panic) (rest : List Entry)
    (h : collectItem d k v = .error p) :
    rangeEntries ((d, k, v) :: rest) = ([], some p) := by
  rw [rangeEntries, h]

theorem rangeEntries_items (d : String) (rest : List Entry) :
    ∀ (items : Items),
      rangeEntries (items.map (fun kv => (d, kv.1, kv.2)) ++ rest)
        = match rangeItems d items with
          | (ms, some p) => (ms, some p)
          | (ms, none) => (ms ++ (rangeEntries rest).1, (rangeEntries rest).2)
  | [] => by simp [rangeItems]
  | (k, v) :: items => by
    have ih := rangeEntries_items d rest items
    cases hc : collectItem d k v with
    | error p =>
      rw [List.map_cons, List.cons_append, rangeEntries_cons_error d k v p _ hc,
        rangeItems_cons_error d k v p items hc]
    | ok ms =>
      rw [List.map_cons, List.cons_append, rangeEntries_cons_ok d k v ms _ hc,
        rangeItems_cons_ok d k v ms items hc, ih]
      rcases rangeItems d items with ⟨ms', _ | p⟩ <;> simp

theorem rangeStats_eq_rangeEntries : ∀ (stats : Stats), rangeStats stats = rangeEntries (entries stats)
  | [] => rfl
  | (d, items) :: rest => by
    rw [rangeStats_cons, entries, rangeEntries_items d (entries rest) items,
      rangeStats_eq_rangeEntries rest]

theorem rangeEntries_none_iff : ∀ (es : List Entry),
    (rangeEntries es).2 = none ↔ ∀ e ∈ es, ∃ ms, collectItem e.1 e.2.1 e.2.2 = .ok ms
  | [] => by simp [rangeEntries]
  | (d, k, v) :: rest => by
    have ih := rangeEntries_none_iff rest
    cases hc : collectItem d k v with
    | error p =>
      rw [rangeEntries_cons_error d k v p rest hc]
      constructor
      · intro h
        cases h
      · intro h
        obtain ⟨ms, hms⟩ := h (d, k, v) (List.mem_cons_self _ _)
        rw [hc] at hms
        cases hms
    | ok ms =>
      rw [rangeEntries_cons_ok d k v ms rest hc]
      simp only [List.mem_cons, forall_eq_or_imp, hc]
      rw [ih]
      simp

theorem rangeEntries_sent : ∀ (es : List Entry), (rangeEntries es).2 = none →
    (rangeEntries es).1 = es.flatMap entryMetrics
  | [], _ => rfl
  | (d, k, v) :: rest, h => by
    cases hc : collectItem d k v with
    | error p =>
      rw [rangeEntries_cons_error d k v p rest hc] at h
      cases h
    | ok ms =>
      rw [rangeEntries_cons_ok d k v ms rest hc] at h ⊢
      rw [List.flatMap_cons, rangeEntries_sent rest h]
      simp [entryMetrics, hc]

theorem rangeEntries_mem : ∀ (es : List Entry) (m : Metric), m ∈ (rangeEntries es).1 →
    ∃ e ∈ es, ∃ ms, collectItem e.1 e.2.1 e.2.2 = .ok ms ∧ m ∈ ms
  | [], m, hm => by simp [rangeEntries] at hm
  | (d, k, v) :: rest, m, hm => by
    cases hc : collectItem d k v with
    | error p =>
      rw [rangeEntries_cons_error d k v p rest hc] at hm
      simp at hm
    | ok ms =>
      rw [rangeEntries_cons_ok d k v ms rest hc] at hm
      rcases List.mem_append.mp hm with h | h
      · exact ⟨(d, k, v), List.mem_cons_self _ _, ms, hc, h⟩
      · obtain ⟨e, he, ms', hms', hm'⟩ := rangeEntries_mem rest m h
        exact ⟨e, List.mem_cons_of_mem _ he, ms', hms', hm'⟩

theorem rangeEntries_perm (es es' : List Entry) (hp : es.Perm es')
    (h : (rangeEntries es).2 = none) :
    (rangeEntries es').2 = none ∧ (rangeEntries es).1.Perm (rangeEntries es').1 := by
  have h' : (rangeEntries es').2 = none := by
    rw [rangeEntries_none_iff] at h ⊢
    intro e he
    exact h e (hp.mem_iff.mpr he)
  refine ⟨h', ?_⟩
  rw [rangeEntries_sent es h, rangeEntries_sent es' h']
  exact hp.flatMap_right entryMetrics

theorem CollectStats_eq_of_rangeStats (stats : Stats) :
    CollectStats stats
      = ⟨(rangeStats stats).1,
          match (rangeStats stats).2 with
          | some p => .panicked p
          | none => .returned none⟩ := by
  unfold CollectStats
  rcases rangeStats stats with ⟨ms, _ | p⟩ <;> rfl

/-! ## lemmas on the key of an entry that sends a metric -/

theorem indexChars_ge (c : Char) : ∀ (l : List Char), -1 ≤ indexChars c l
  | [] => by simp [indexChars]
  | x :: xs => by
    have ih := indexChars_ge c xs
    rw [indexChars]
    split
    · omega
    · split <;> omega

theorem indexChars_split (c : Char) : ∀ (l : List Char), 0 ≤ indexChars c l →
    l = l.take (indexChars c l).toNat ++ c :: l.drop ((indexChars c l).toNat + 1)
  | [], h => by simp [indexChars] at h
  | x :: xs, h => by
    rw [indexChars] at h ⊢
    by_cases hx : x = c
    · rw [if_pos hx]
      simp [hx]
    · rw [if_neg hx] at h ⊢
      by_cases hneg : indexChars c xs < 0
      · rw [if_pos hneg] at h
        omega
      · rw [if_neg hneg]
        have h0 : 0 ≤ indexChars c xs := by omega
        have ih := indexChars_split c xs h0
        have e : (indexChars c xs + 1).toNat = (indexChars c xs).toNat + 1 := by omega
        rw [e, List.take_succ_cons, List.drop_succ_cons, List.cons_append, ← ih]

theorem key_of_slices (k ns rest : String)
    (h1 : sliceTo k (stringsIndex k '.') = .ok ns)
    (h2 : sliceFrom k (stringsIndex k '.' + 1) = .ok rest) :
    k = ns ++ "." ++ rest := by
  unfold sliceTo at h1
  unfold sliceFrom at h2
  unfold stringsIndex at h1 h2
  split at h1
  · rename_i hb
    split at h2
    · cases h1
      cases h2
      have hs := indexChars_split '.' k.data hb.1
      have e : (indexChars '.' k.data + 1).toNat = (indexChars '.' k.data).toNat + 1 := by
        omega
      apply String.ext
      rw [key_data, e]
      exact hs
    · cases h2
  · cases h1

theorem collectItem_handled (d k : String) (v : Value) (ms : List Metric)
    (hk : k ∈ ["vcpu.maximum", "vcpu.current", "cpu.user", "cpu.system", "cpu.time",
      "balloon.last-update", "balloon.maximum", "balloon.current", "balloon.rss"])
    (h : collectItem d k v = .ok ms) : ms.length = 1 := by
  simp only [List.mem_cons, List.mem_singleton, List.not_mem_nil, or_false] at hk
  rcases hk with rfl | rfl | rfl | rfl | rfl | rfl | rfl | rfl | rfl <;> cases v <;>
    first
    | (cases h; done)
    | (cases h; rfl)

theorem collectItem_unhandled (d k : String) (v : Value) (ms : List Metric)
    (hk : k ∉ ["vcpu.maximum", "vcpu.current", "cpu.user", "cpu.system", "cpu.time",
      "balloon.last-update", "balloon.maximum", "balloon.current", "balloon.rss"])
    (h : collectItem d k v = .ok ms) : ms = [] := by
  unfold collectItem at h
  simp only [bind, Except.bind, pure, Except.pure] at h
  repeat' split at h
  all_goals first
    | (cases h; done)
    | (cases h; rfl)
    | (exfalso
       have hkey := key_of_slices k _ _ ‹sliceTo k _ = _› ‹sliceFrom k _ = _›
       subst_vars
       exact hk (by decide))

theorem collectItem_desc_mem (d k : String) (v : Value) (ms : List Metric)
    (h : collectItem d k v = .ok ms) : ∀ m ∈ ms, m.desc ∈ LibvirtExporter.Describe := by
  unfold collectItem at h
  simp only [bind, Except.bind, pure, Except.pure, MustNewConstMetric] at h
  intro m hm
  repeat' split at h
  all_goals first
    | (cases h; done)
    | (cases h; simp at hm; done)
    | (rename_i heq
       change Except.ok _ = _ at heq
       cases heq
       cases h
       simp only [List.mem_singleton] at hm
       subst hm
       simp [LibvirtExporter.Describe])

theorem sliceTo_error (s : String) (i : Int) (p : Panic) (h : sliceTo s i = .error p) :
    p = .sliceBounds := by
  unfold sliceTo at h
  split at h <;> cases h
  rfl

theorem sliceFrom_error (s : String) (i : Int) (p : Panic) (h : sliceFrom s i = .error p) :
    p = .sliceBounds := by
  unfold sliceFrom at h
  split at h <;> cases h
  rfl

theorem assertUint32_error (v : Value) (p : Panic) (h : v.assertUint32 = .error p) :
    p = .typeAssertion := by
  cases v <;> cases h <;> rfl

theorem assertUint64_error (v : Value) (p : Panic) (h : v.assertUint64 = .error p) :
    p = .typeAssertion := by
  cases v <;> cases h <;> rfl

theorem collectItem_cardinality (d k : String) (v : Value) :
    collectItem d k v ≠ .error .inconsistentCardinality := by
  intro h
  unfold collectItem at h
  simp only [bind, Except.bind, pure, Except.pure, MustNewConstMetric, throw, throwThe,
    MonadExceptOf.throw] at h
  repeat' split at h
  all_goals first
    | (cases h; done)
    | (have e := sliceTo_error _ _ _ ‹sliceTo _ _ = Except.error _›
       subst e
       cases h)
    | (have e := sliceFrom_error _ _ _ ‹sliceFrom _ _ = Except.error _›
       subst e
       cases h)
    | (have e := assertUint32_error _ _ ‹Value.assertUint32 _ = Except.error _›
       subst e
       cases h)
    | (have e := assertUint64_error _ _ ‹Value.assertUint64 _ = Except.error _›
       subst e
       cases h)
    | (rename_i heq
       change Except.ok _ = _ at heq
       cases heq)

theorem rangeEntries_cardinality : ∀ (es : List Entry),
    (rangeEntries es).2 ≠ some .inconsistentCardinality
  | [] => by simp [rangeEntries]
  | (d, k, v) :: rest => by
    cases hc : collectItem d k v with
    | error p =>
      rw [rangeEntries_cons_error d k v p rest hc]
      intro h
      cases h
      exact collectItem_cardinality d k v hc
    | ok ms =>
      rw [rangeEntries_cons_ok d k v ms rest hc]
      exact rangeEntries_cardinality rest

theorem rangeEntries_length : ∀ (es : List Entry), (rangeEntries es).2 = none →
    (rangeEntries es).1.length
      = (es.filter (fun e => decide (e.2.1 ∈ ["vcpu.maximum", "vcpu.current", "cpu.user",
          "cpu.system", "cpu.time", "balloon.last-update", "balloon.maximum",
          "balloon.current", "balloon.rss"]))).length
  | [], _ => rfl
  | (d, k, v) :: rest, h => by
    cases hc : collectItem d k v with
    | error p =>
      rw [rangeEntries_cons_error d k v p rest hc] at h
      cases h
    | ok ms =>
      rw [rangeEntries_cons_ok d k v ms rest hc] at h ⊢
      have ih := rangeEntries_length rest h
      by_cases hk : k ∈ ["vcpu.maximum", "vcpu.current", "cpu.user", "cpu.system", "cpu.time",
          "balloon.last-update", "balloon.maximum", "balloon.current", "balloon.rss"]
      · have h1 := collectItem_handled d k v ms hk hc
        rw [List.filter_cons_of_pos (by simpa using hk)]
        simp only [List.length_append, List.length_cons, h1, ih]
        omega
      · have h0 := collectItem_unhandled d k v ms hk hc
        rw [List.filter_cons_of_neg (by simpa using hk)]
        simp only [List.length_append, h0, List.length_nil, ih]
        omega

theorem entries_length_of_empty : ∀ (stats : Stats), (∀ p ∈ stats, p.2 = []) → entries stats = []
  | [], _ => rfl
  | (d, items) :: rest, h => by
    have h1 : items = [] := h (d, items) (List.mem_cons_self _ _)
    have h2 := entries_length_of_empty rest (fun p hp => h p (List.mem_cons_of_mem _ hp))
    rw [entries, h1, h2]
    rfl

theorem entries_perm_of_visits : ∀ (s u : Stats),
    List.Forall₂ (fun a b => a.1 = b.1 ∧ a.2.Perm b.2) s u → (entries s).Perm (entries u)
  | _, _, .nil => List.Perm.refl _
  | (d, items) :: s, (d', items') :: u, .cons hab hrest => by
    obtain ⟨hd, hp⟩ := hab
    simp only at hd hp
    subst hd
    rw [entries, entries]
    exact List.Perm.append (hp.map _) (entries_perm_of_visits s u hrest)

theorem entries_perm_of_domains (u t : Stats) (h : u.Perm t) : (entries u).Perm (entries t) := by
  induction h with
  | nil => exact List.Perm.refl _
  | cons x _ ih =>
    obtain ⟨d, items⟩ := x
    rw [entries, entries]
    exact List.Perm.append_left _ ih
  | swap x y l =>
    obtain ⟨d, items⟩ := x
    obtain ⟨d', items'⟩ := y
    simp only [entries]
    rw [← List.append_assoc, ← List.append_assoc]
    exact List.Perm.append_right _ List.perm_append_comm
  | trans _ _ ih1 ih2 => exact ih1.trans ih2

theorem dotted_ne (mid leaf s : String) (hs : '.' ∉ s.data) : mid ++ "." ++ leaf ≠ s := by
  intro h
  apply hs
  rw [← h, key_data]
  simp

theorem CollectFromLibvirt_desc_mem (env : Libvirt) (uri : String) :
    ∀ m ∈ (CollectFromLibvirt env uri).sent, m.desc ∈ LibvirtExporter.Describe := by
  intro m hm
  unfold CollectFromLibvirt at hm
  split at hm
  · simp at hm
  · split at hm
    · split at hm
      · simp at hm
      · split at hm
        · simp at hm
        · rename_i stats _
          rw [CollectStats_sent, rangeStats_eq_rangeEntries] at hm
          obtain ⟨e, _, ms, hms, hmem⟩ := rangeEntries_mem _ m hm
          exact collectItem_desc_mem _ _ _ ms hms m hmem
    · simp at hm

theorem collectItem_dispatch (d ns rest : String) (ival : Value) (hdot : '.' ∉ ns.data) :
    collectItem d (ns ++ "." ++ rest) ival
      = if ns = "vcpu" then vcpuSwitch d rest ival
        else if ns = "cpu" then cpuSwitch d rest ival
        else if ns = "balloon" then balloonSwitch d (ns ++ "." ++ rest) rest ival
        else .ok [] := by
  unfold collectItem
  simp only [bind, Except.bind, sliceTo_key ns rest hdot, sliceFrom_key ns rest hdot]
  by_cases h1 : ns = "vcpu"
  · simp only [if_pos h1]
    rfl
  · simp only [if_neg h1]
    by_cases h2 : ns = "cpu"
    · simp only [if_pos h2]
      rfl
    · simp only [if_neg h2]
      by_cases h3 : ns = "balloon"
      · simp only [if_pos h3]
        rfl
      · simp only [if_neg h3]
        rfl

/-! ## block and network entries, the leaf, and `Describe` -/

/-- **C11, counterexample.** A snapshot with the descriptor keys and the
counters of one block device and one network interface sends no metric at
all: the namespaces `block` and `net` take the default branch of the switch. -/
theorem C11_counterexample :
    CollectStats [("vm1", [("block.0.name", Value.string "vda"),
        ("block.0.path", Value.string "/var/lib/vm1.img"),
        ("block.0.rd.bytes", Value.uint64 4096), ("block.0.rd.times", Value.uint64 1000000000),
        ("net.0.name", Value.string "vnet0"), ("net.0.rx.bytes", Value.uint64 100)])]
      = ⟨[], .returned none⟩ := by
  decide

/-- **C11, amended.** An entry whose namespace is `block` or `net` sends no
metric, whatever its remainder and its value: the cases for these namespaces
are commented out, the entry takes the default branch, and the run of the
snapshot is the run of the snapshot without the entry. -/
theorem C11_block_net_not_exported (d rest : String) (ival : Value) (before after : Stats)
    (pre post : Items) :
    collectItem d ("block" ++ "." ++ rest) ival = .ok []
    ∧ CollectStats (before ++ (d, pre ++ ("block" ++ "." ++ rest, ival) :: post) :: after)
      = CollectStats (before ++ (d, pre ++ post) :: after)
    ∧ collectItem d ("net" ++ "." ++ rest) ival = .ok []
    ∧ CollectStats (before ++ (d, pre ++ ("net" ++ "." ++ rest, ival) :: post) :: after)
      = CollectStats (before ++ (d, pre ++ post) :: after) := by
  have hb := collectItem_other d "block" rest ival (by decide) (by decide) (by decide) (by decide)
  have hn := collectItem_other d "net" rest ival (by decide) (by decide) (by decide) (by decide)
  exact ⟨hb, CollectStats_skip d _ ival before after pre post hb,
    hn, CollectStats_skip d _ ival before after pre post hn⟩

/-- **C12, counterexample.** The keys `vcpu.0.current` and `vcpu.current` have
the same namespace `vcpu` and the same leaf `current` after the last `.`, but
only `vcpu.current` is routed to the vcpu current metric: `vcpu.0.current`
sends nothing. -/
theorem C12_counterexample :
    sliceTo "vcpu.0.current" (stringsIndex "vcpu.0.current" '.') = .ok "vcpu"
    ∧ sliceFrom "vcpu.0.current" (stringsLastIndex "vcpu.0.current" '.' + 1) = .ok "current"
    ∧ sliceTo "vcpu.current" (stringsIndex "vcpu.current" '.') = .ok "vcpu"
    ∧ sliceFrom "vcpu.current" (stringsLastIndex "vcpu.current" '.' + 1) = .ok "current"
    ∧ collectItem "vm1" "vcpu.current" (Value.uint32 4)
      = .ok [⟨libvirtDomainVcpuCurrentDesc, .GaugeValue, ⟨1, 2⟩, ["vm1"]⟩]
    ∧ collectItem "vm1" "vcpu.0.current" (Value.uint32 4) = .ok [] := by
  decide

/-- **C12, amended.** `CollectStats` selects the metric of an entry from its
namespace (the characters before the first `.`) and the whole remainder after
the first `.`. A key whose remainder has a further `.`, that is a key
`ns.mid.leaf`, matches no handled leaf whatever `leaf` is: in the namespaces
`vcpu` and `cpu` the entry sends nothing, in `balloon` it ends the call with
the panic of the default branch. -/
theorem C12_leaf_is_remainder_after_first_dot (d mid leaf : String) (ival : Value) :
    sliceFrom ("vcpu" ++ "." ++ (mid ++ "." ++ leaf))
        (stringsIndex ("vcpu" ++ "." ++ (mid ++ "." ++ leaf)) '.' + 1)
      = .ok (mid ++ "." ++ leaf)
    ∧ collectItem d ("vcpu" ++ "." ++ (mid ++ "." ++ leaf)) ival = .ok []
    ∧ collectItem d ("cpu" ++ "." ++ (mid ++ "." ++ leaf)) ival = .ok []
    ∧ collectItem d ("balloon" ++ "." ++ (mid ++ "." ++ leaf)) ival
      = .error (.unknownLeaf d ("balloon" ++ "." ++ (mid ++ "." ++ leaf))) :=
  ⟨sliceFrom_key "vcpu" _ (by decide),
    collectItem_vcpu_unknown d _ ival (dotted_ne mid leaf _ (by decide))
      (dotted_ne mid leaf _ (by decide)),
    collectItem_cpu_unknown d _ ival (dotted_ne mid leaf _ (by decide))
      (dotted_ne mid leaf _ (by decide)) (dotted_ne mid leaf _ (by decide)),
    collectItem_balloon_unknown d _ ival (dotted_ne mid leaf _ (by decide))
      (dotted_ne mid leaf _ (by decide)) (dotted_ne mid leaf _ (by decide))
      (dotted_ne mid leaf _ (by decide))⟩

/-- **C13.** `Describe` covers what is exported: the descriptor of every
metric sent by `CollectStats`, for every snapshot, and of every metric sent by
`LibvirtExporter.Collect`, for every scrape (the `libvirt_up` metric
included), is one of the descriptors that `Describe` sends. -/
theorem C13_describe_covers_collect (stats : Stats) (env : Libvirt) (e : LibvirtExporter) :
    (∀ m ∈ (CollectStats stats).sent, m.desc ∈ LibvirtExporter.Describe)
    ∧ (∀ m ∈ (LibvirtExporter.Collect env e).sent, m.desc ∈ LibvirtExporter.Describe) := by
  constructor
  · intro m hm
    rw [CollectStats_sent, rangeStats_eq_rangeEntries] at hm
    obtain ⟨en, _, ms, hms, hmem⟩ := rangeEntries_mem _ m hm
    exact collectItem_desc_mem _ _ _ ms hms m hmem
  · intro m hm
    have hscrape := CollectFromLibvirt_desc_mem env e.uri
    have hup : libvirtUpDesc ∈ LibvirtExporter.Describe := by decide
    unfold LibvirtExporter.Collect at hm
    simp only [MustNewConstMetric] at hm
    split at hm
    · exact hscrape m hm
    · change m ∈ (CollectFromLibvirt env e.uri).sent ++ [_] at hm
      rcases List.mem_append.mp hm with h | h
      · exact hscrape m h
      · simp only [List.mem_singleton] at h
        subst h
        exact hup
    · change m ∈ (CollectFromLibvirt env e.uri).sent ++ [_] at hm
      rcases List.mem_append.mp hm with h | h
      · exact hscrape m h
      · simp only [List.mem_singleton] at h
        subst h
        exact hup

/-- Witness of C13: the cpu time metric of a snapshot and the `libvirt_up`
metric of a scrape have descriptors sent by `Describe`. -/
theorem C13_describe_covers_collect_witness :
    libvirtDomainCpuTimeDesc ∈ LibvirtExporter.Describe
    ∧ libvirtUpDesc ∈ LibvirtExporter.Describe :=
  have h := C13_describe_covers_collect [("vm1", [("cpu.time", Value.uint64 1000000000)])]
    (connected ⟨"dbus"⟩ [("vm1", [("cpu.time", Value.uint64 1000000000)])])
    ⟨"dbus:///system"⟩
  ⟨h.1 ⟨libvirtDomainCpuTimeDesc, .CounterValue, ⟨1, 0⟩, ["vm1"]⟩ (by decide),
    h.2 ⟨libvirtUpDesc, .GaugeValue, ⟨1, 0⟩, []⟩ (by decide)⟩

/-- **C14.** For a key `ns.rest` in which `ns` has no `.`, the index of the
first `.` is the length of `ns`, the namespace `ikey[:idx]` is `ns`, and
`CollectStats` dispatches on `ns`: the loop iteration for the entry is the
inner switch of `vcpu`, of `cpu` or of `balloon` on the leaf `rest` when `ns`
is that namespace, and sends nothing for every other `ns`, however many `.`
occur in `rest`. -/
theorem C14_namespace_before_first_dot (d ns rest : String) (ival : Value)
    (hdot : '.' ∉ ns.data) :
    stringsIndex (ns ++ "." ++ rest) '.' = (ns.data.length : Int)
    ∧ sliceTo (ns ++ "." ++ rest) (stringsIndex (ns ++ "." ++ rest) '.') = .ok ns
    ∧ collectItem d (ns ++ "." ++ rest) ival
      = (if ns = "vcpu" then vcpuSwitch d rest ival
        else if ns = "cpu" then cpuSwitch d rest ival
        else if ns = "balloon" then balloonSwitch d (ns ++ "." ++ rest) rest ival
        else .ok [])
    ∧ (∀ rest' : Items, rangeItems d ((ns ++ "." ++ rest, ival) :: rest')
      = match (if ns = "vcpu" then vcpuSwitch d rest ival
          else if ns = "cpu" then cpuSwitch d rest ival
          else if ns = "balloon" then balloonSwitch d (ns ++ "." ++ rest) rest ival
          else .ok []) with
        | .error p => ([], some p)
        | .ok ms => (ms ++ (rangeItems d rest').1, (rangeItems d rest').2)) := by
  have hidx : stringsIndex (ns ++ "." ++ rest) '.' = (ns.data.length : Int) := by
    unfold stringsIndex
    rw [key_data, indexChars_append '.' rest.data ns.data hdot]
  have hdisp := collectItem_dispatch d ns rest ival hdot
  refine ⟨hidx, sliceTo_key ns rest hdot, hdisp, ?_⟩
  intro rest'
  rw [rangeItems, hdisp]

/-- Witness of C14: `vcpu.current` is dispatched to the `vcpu` switch and
sends the vcpu current gauge; `cpu.time` is dispatched to the `cpu` switch;
`balloon.a.b` is dispatched to the `balloon` switch, which panics on the leaf
`a.b`; the namespace of `block.0.rd.bytes` is `block`, which sends nothing. -/
theorem C14_namespace_before_first_dot_witness :
    '.' ∉ "vcpu".data
    ∧ "vcpu" ++ "." ++ "current" = "vcpu.current"
    ∧ collectItem "vm1" ("vcpu" ++ "." ++ "current") (Value.uint32 4)
      = .ok [⟨libvirtDomainVcpuCurrentDesc, .GaugeValue, ⟨1, 2⟩, ["vm1"]⟩]
    ∧ collectItem "vm1" ("cpu" ++ "." ++ "time") (Value.uint64 1000000000)
      = .ok [⟨libvirtDomainCpuTimeDesc, .CounterValue, ⟨1, 0⟩, ["vm1"]⟩]
    ∧ collectItem "vm1" ("balloon" ++ "." ++ "a.b") (Value.uint64 1)
      = .error (.unknownLeaf "vm1" "balloon.a.b")
    ∧ sliceTo ("block" ++ "." ++ "0.rd.bytes")
        (stringsIndex ("block" ++ "." ++ "0.rd.bytes") '.') = .ok "block"
    ∧ collectItem "vm1" ("block" ++ "." ++ "0.rd.bytes") (Value.uint64 4096) = .ok [] :=
  ⟨by decide, by decide,
    (C14_namespace_before_first_dot "vm1" "vcpu" "current" (Value.uint32 4)
      (by decide)).2.2.1.trans (by decide),
    (C14_namespace_before_first_dot "vm1" "cpu" "time" (Value.uint64 1000000000)
      (by decide)).2.2.1.trans (by decide),
    (C14_namespace_before_first_dot "vm1" "balloon" "a.b" (Value.uint64 1)
      (by decide)).2.2.1.trans (by decide),
    (C14_namespace_before_first_dot "vm1" "block" "0.rd.bytes" (Value.uint64 4096)
      (by decide)).2.1,
    (C14_namespace_before_first_dot "vm1" "block" "0.rd.bytes" (Value.uint64 4096)
      (by decide)).2.2.1.trans (by decide)⟩

/-! ## labels, empty snapshots, and the order of the visit -/

/-- **C15.** Every metric sent by `CollectStats` comes from an entry of the
snapshot and carries, as its label values, the domain name of that entry
alone: the domain is the first label value, and the number of label values is
the number of label names of the descriptor, which is one (`domain`).
`MustNewConstMetric` therefore never panics on a label-count mismatch. -/
theorem C15_labels_follow_descriptor (stats : Stats) :
    (∀ m ∈ (CollectStats stats).sent,
      ∃ en ∈ entries stats, m ∈ entryMetrics en
        ∧ m.labelValues = [en.1]
        ∧ m.labelValues.head? = some en.1
        ∧ m.desc.variableLabels = ["domain"]
        ∧ m.labelValues.length = m.desc.variableLabels.length)
    ∧ (CollectStats stats).outcome ≠ .panicked .inconsistentCardinality := by
  constructor
  · intro m hm
    rw [CollectStats_sent, rangeStats_eq_rangeEntries] at hm
    obtain ⟨en, hen, ms, hms, hmem⟩ := rangeEntries_mem _ m hm
    obtain ⟨hl, hd⟩ := collectItem_shape _ _ _ ms hms m hmem
    refine ⟨en, hen, ?_, hl, ?_, hd, ?_⟩
    · simp only [entryMetrics, hms]
      exact hmem
    · rw [hl]
      rfl
    · rw [hl, hd]
      rfl
  · rw [CollectStats_eq_of_rangeStats]
    have hc := rangeEntries_cardinality (entries stats)
    rw [← rangeStats_eq_rangeEntries] at hc
    rcases hr : (rangeStats stats).2 with _ | p
    · intro h
      cases h
    · rw [hr] at hc
      intro h
      simp only [Outcome.panicked.injEq] at h
      exact hc (by rw [h])

/-- Witness of C15: the cpu time metric of domain `vm2` in a snapshot of two
domains carries the label values `[vm2]` for the label names `[domain]`. -/
theorem C15_labels_follow_descriptor_witness :
    ∃ en ∈ entries [("vm1", [("vcpu.current", Value.uint32 4)]),
        ("vm2", [("cpu.time", Value.uint64 1000000000)])],
      (⟨libvirtDomainCpuTimeDesc, .CounterValue, ⟨1, 0⟩, ["vm2"]⟩ : Metric) ∈ entryMetrics en
        ∧ ["vm2"] = [en.1]
        ∧ ["vm2"].head? = some en.1
        ∧ libvirtDomainCpuTimeDesc.variableLabels = ["domain"]
        ∧ ["vm2"].length = libvirtDomainCpuTimeDesc.variableLabels.length :=
  (C15_labels_follow_descriptor [("vm1", [("vcpu.current", Value.uint32 4)]),
      ("vm2", [("cpu.time", Value.uint64 1000000000)])]).1
    ⟨libvirtDomainCpuTimeDesc, .CounterValue, ⟨1, 0⟩, ["vm2"]⟩ (by decide)

/-- **C16.** An empty snapshot is a success: for the snapshot without domains,
and for every snapshot whose domains all have no entries, `CollectStats` sends
no metric and returns `nil`. -/
theorem C16_empty_snapshot_is_success (stats : Stats) (h : ∀ p ∈ stats, p.2 = []) :
    CollectStats stats = ⟨[], .returned none⟩ := by
  rw [CollectStats_eq_of_rangeStats, rangeStats_eq_rangeEntries,
    entries_length_of_empty stats h]
  rfl

/-- Witness of C16: the snapshot without domains and a snapshot of two domains
without entries; a scrape of the empty snapshot returns `nil`, so that
`libvirt_up` is `1`. -/
theorem C16_empty_snapshot_is_success_witness :
    CollectStats [] = ⟨[], .returned none⟩
    ∧ CollectStats [("vm1", []), ("vm2", [])] = ⟨[], .returned none⟩
    ∧ LibvirtExporter.Collect (connected ⟨"dbus"⟩ []) ⟨"dbus:///system"⟩
      = ⟨[⟨libvirtUpDesc, .GaugeValue, ⟨1, 0⟩, []⟩], .returned none⟩ :=
  ⟨C16_empty_snapshot_is_success [] (by decide),
    C16_empty_snapshot_is_success [("vm1", []), ("vm2", [])] (by decide), by decide⟩

/-- **C17, counterexample.** Go does not fix the order in which `range` visits
a map. The snapshot of one domain with the entries `cpu.time` and
`vcpu.current` can be visited in two orders; both runs return `nil`, and the
two sequences of metrics differ (they hold the same metrics in opposite
order). -/
theorem C17_counterexample :
    List.Forall₂ (fun (a b : String × Items) => a.1 = b.1 ∧ a.2.Perm b.2)
      [("vm1", [("cpu.time", Value.uint64 1000000000), ("vcpu.current", Value.uint32 4)])]
      [("vm1", [("vcpu.current", Value.uint32 4), ("cpu.time", Value.uint64 1000000000)])]
    ∧ CollectStats
        [("vm1", [("cpu.time", Value.uint64 1000000000), ("vcpu.current", Value.uint32 4)])]
      = ⟨[⟨libvirtDomainCpuTimeDesc, .CounterValue, ⟨1, 0⟩, ["vm1"]⟩,
          ⟨libvirtDomainVcpuCurrentDesc, .GaugeValue, ⟨1, 2⟩, ["vm1"]⟩], .returned none⟩
    ∧ CollectStats
        [("vm1", [("vcpu.current", Value.uint32 4), ("cpu.time", Value.uint64 1000000000)])]
      = ⟨[⟨libvirtDomainVcpuCurrentDesc, .GaugeValue, ⟨1, 2⟩, ["vm1"]⟩,
          ⟨libvirtDomainCpuTimeDesc, .CounterValue, ⟨1, 0⟩, ["vm1"]⟩], .returned none⟩
    ∧ (CollectStats
        [("vm1", [("cpu.time", Value.uint64 1000000000), ("vcpu.current", Value.uint32 4)])]).sent
      ≠ (CollectStats
        [("vm1", [("vcpu.current", Value.uint32 4),
          ("cpu.time", Value.uint64 1000000000)])]).sent :=
  ⟨.cons ⟨rfl, List.Perm.swap _ _ _⟩ .nil, by decide, by decide, by decide⟩

/-- **C17, amended.** Classification is deterministic up to the order of the
visit. Let `s` and `t` be two visits of the same snapshot (`u` visits the
domains in the order of `s` and the entries of each domain in another order,
and `t` visits the domains of `u` in another order). The run on `s` returns
exactly when the run on `t` returns, and then the two runs send the same
metrics (descriptor, kind, value and label values) with the same
multiplicities: the sequences are permutations of each other, each being the
concatenation of the metrics of the single entries in the order of its visit.
When the two visits are the same sequence of entries, the two runs are
identical. -/
theorem C17_same_metrics_up_to_order (s u t : Stats)
    (hkeys : List.Forall₂ (fun (a b : String × Items) => a.1 = b.1 ∧ a.2.Perm b.2) s u)
    (hdomains : u.Perm t) :
    ((CollectStats s).outcome = .returned none ↔ (CollectStats t).outcome = .returned none)
    ∧ ((CollectStats s).outcome = .returned none →
        (CollectStats s).sent.Perm (CollectStats t).sent
        ∧ (∀ m : Metric, (CollectStats s).sent.count m = (CollectStats t).sent.count m)
        ∧ (CollectStats s).sent = (entries s).flatMap entryMetrics
        ∧ (CollectStats t).sent = (entries t).flatMap entryMetrics)
    ∧ (entries s = entries t → CollectStats s = CollectStats t) := by
  have hperm : (entries s).Perm (entries t) :=
    (entries_perm_of_visits s u hkeys).trans (entries_perm_of_domains u t hdomains)
  have hret : ∀ (x : Stats), (CollectStats x).outcome = .returned none
      ↔ (rangeEntries (entries x)).2 = none := by
    intro x
    rw [CollectStats_eq_of_rangeStats, rangeStats_eq_rangeEntries]
    rcases (rangeEntries (entries x)).2 with _ | p <;> simp
  refine ⟨?_, ?_, ?_⟩
  · rw [hret s, hret t]
    exact ⟨fun h => (rangeEntries_perm _ _ hperm h).1,
      fun h => (rangeEntries_perm _ _ hperm.symm h).1⟩
  · intro hs
    have hs' := (hret s).mp hs
    obtain ⟨ht', hsent⟩ := rangeEntries_perm (entries s) (entries t) hperm hs'
    have hp : (CollectStats s).sent.Perm (CollectStats t).sent := by
      rw [CollectStats_sent, CollectStats_sent, rangeStats_eq_rangeEntries,
        rangeStats_eq_rangeEntries]
      exact hsent
    refine ⟨hp, fun m => hp.count_eq m, ?_, ?_⟩
    · rw [CollectStats_sent, rangeStats_eq_rangeEntries]
      exact rangeEntries_sent _ hs'
    · rw [CollectStats_sent, rangeStats_eq_rangeEntries]
      exact rangeEntries_sent _ ht'
  · intro h
    rw [CollectStats_eq_of_rangeStats, CollectStats_eq_of_rangeStats,
      rangeStats_eq_rangeEntries, rangeStats_eq_rangeEntries, h]

/-- Witness of C17 (amended): the two visits of the counterexample return
and send the same two metrics, the cpu time counter `1.0` and the vcpu current
gauge `4.0` of `vm1`, once each, in opposite orders. -/
theorem C17_same_metrics_up_to_order_witness :
    (CollectStats
        [("vm1", [("cpu.time", Value.uint64 1000000000), ("vcpu.current", Value.uint32 4)])]).sent
      = [⟨libvirtDomainCpuTimeDesc, .CounterValue, ⟨1, 0⟩, ["vm1"]⟩,
          ⟨libvirtDomainVcpuCurrentDesc, .GaugeValue, ⟨1, 2⟩, ["vm1"]⟩]
    ∧ (CollectStats
        [("vm1", [("cpu.time", Value.uint64 1000000000), ("vcpu.current", Value.uint32 4)])]).sent.Perm
      (CollectStats
        [("vm1", [("vcpu.current", Value.uint32 4), ("cpu.time", Value.uint64 1000000000)])]).sent
    ∧ (CollectStats
        [("vm1", [("vcpu.current", Value.uint32 4), ("cpu.time", Value.uint64 1000000000)])]).sent.count
        ⟨libvirtDomainCpuTimeDesc, .CounterValue, ⟨1, 0⟩, ["vm1"]⟩ = 1 :=
  have h := (C17_same_metrics_up_to_order
    [("vm1", [("cpu.time", Value.uint64 1000000000), ("vcpu.current", Value.uint32 4)])]
    [("vm1", [("vcpu.current", Value.uint32 4), ("cpu.time", Value.uint64 1000000000)])]
    [("vm1", [("vcpu.current", Value.uint32 4), ("cpu.time", Value.uint64 1000000000)])]
    (.cons ⟨rfl, List.Perm.swap _ _ _⟩ .nil) (List.Perm.refl _)).2.1 (by decide)
  ⟨by decide, h.1, (h.2.1 ⟨libvirtDomainCpuTimeDesc, .CounterValue, ⟨1, 0⟩, ["vm1"]⟩).symm.trans
    (by decide)⟩

/-- **C18.** The order of the visit is not significant. Let `s` and `t` be two
visits of the same snapshot: `u` visits the domains in the order of `s` and
the entries of each domain in another order, and `t` visits the domains of `u`
in another order. If `CollectStats` returns on `s`, it returns on `t`, and the
two sequences of metrics are permutations of each other. -/
theorem C18_order_of_visit_not_significant (s u t : Stats)
    (hkeys : List.Forall₂ (fun (a b : String × Items) => a.1 = b.1 ∧ a.2.Perm b.2) s u)
    (hdomains : u.Perm t)
    (hs : (CollectStats s).outcome = .returned none) :
    (CollectStats t).outcome = .returned none
    ∧ (CollectStats s).sent.Perm (CollectStats t).sent := by
  have hperm : (entries s).Perm (entries t) :=
    (entries_perm_of_visits s u hkeys).trans (entries_perm_of_domains u t hdomains)
  have hnone : (rangeEntries (entries s)).2 = none := by
    rw [CollectStats_eq_of_rangeStats, rangeStats_eq_rangeEntries] at hs
    rcases hp : (rangeEntries (entries s)).2 with _ | p
    · rfl
    · rw [hp] at hs
      cases hs
  obtain ⟨ht, hsent⟩ := rangeEntries_perm (entries s) (entries t) hperm hnone
  constructor
  · rw [CollectStats_eq_of_rangeStats, rangeStats_eq_rangeEntries, ht]
  · rw [CollectStats_sent, CollectStats_sent, rangeStats_eq_rangeEntries,
      rangeStats_eq_rangeEntries]
    exact hsent

/-- Witness of C18: two domains visited in both orders, the entries of the
first one in both orders. -/
theorem C18_order_of_visit_not_significant_witness :
    (CollectStats [("vm1", [("cpu.time", Value.uint64 1000000000),
        ("vcpu.current", Value.uint32 4), ("foo.bar", Value.uint64 1)]),
        ("vm2", [("balloon.rss", Value.uint64 2048)])]).sent.Perm
      (CollectStats [("vm2", [("balloon.rss", Value.uint64 2048)]),
        ("vm1", [("vcpu.current", Value.uint32 4), ("foo.bar", Value.uint64 1),
          ("cpu.time", Value.uint64 1000000000)])]).sent :=
  (C18_order_of_visit_not_significant
    [("vm1", [("cpu.time", Value.uint64 1000000000),
        ("vcpu.current", Value.uint32 4), ("foo.bar", Value.uint64 1)]),
      ("vm2", [("balloon.rss", Value.uint64 2048)])]
    [("vm1", [("vcpu.current", Value.uint32 4), ("foo.bar", Value.uint64 1),
        ("cpu.time", Value.uint64 1000000000)]),
      ("vm2", [("balloon.rss", Value.uint64 2048)])]
    [("vm2", [("balloon.rss", Value.uint64 2048)]),
      ("vm1", [("vcpu.current", Value.uint32 4), ("foo.bar", Value.uint64 1),
        ("cpu.time", Value.uint64 1000000000)])]
    (.cons ⟨rfl, (List.perm_append_comm :
        ([("cpu.time", Value.uint64 1000000000)] ++
          [("vcpu.current", Value.uint32 4), ("foo.bar", Value.uint64 1)]).Perm _)⟩
      (.cons ⟨rfl, List.Perm.refl _⟩ .nil))
    (List.Perm.swap _ _ _) (by decide)).2

/-- **C19.** Each entry contributes at most one metric. When `CollectStats`
returns, the number of metrics sent is at most the number of (domain, key)
entries of the snapshot, and it is the number of entries whose key is one of
the nine handled keys. -/
theorem C19_one_metric_per_handled_entry (stats : Stats)
    (h : (CollectStats stats).outcome = .returned none) :
    (CollectStats stats).sent.length ≤ (entries stats).length
    ∧ (CollectStats stats).sent.length
      = ((entries stats).filter (fun en => decide (en.2.1 ∈ ["vcpu.maximum", "vcpu.current",
          "cpu.user", "cpu.system", "cpu.time", "balloon.last-update", "balloon.maximum",
          "balloon.current", "balloon.rss"]))).length := by
  have hnone : (rangeEntries (entries stats)).2 = none := by
    rw [CollectStats_eq_of_rangeStats, rangeStats_eq_rangeEntries] at h
    rcases hp : (rangeEntries (entries stats)).2 with _ | p
    · rfl
    · rw [hp] at h
      cases h
  have hlen := rangeEntries_length (entries stats) hnone
  rw [CollectStats_sent, rangeStats_eq_rangeEntries]
  refine ⟨?_, hlen⟩
  rw [hlen]
  exact List.length_filter_le _ _

/-- Witness of C19: a snapshot of five entries, three of them with handled
keys, sends three metrics. -/
theorem C19_one_metric_per_handled_entry_witness :
    (CollectStats [("vm1", [("cpu.time", Value.uint64 1000000000),
        ("vcpu.0.state", Value.int32 1), ("vcpu.current", Value.uint32 4)]),
        ("vm2", [("balloon.rss", Value.uint64 2048), ("net.0.rx.bytes", Value.uint64 7)])]).sent.length
      ≤ 5
    ∧ (CollectStats [("vm1", [("cpu.time", Value.uint64 1000000000),
        ("vcpu.0.state", Value.int32 1), ("vcpu.current", Value.uint32 4)]),
        ("vm2", [("balloon.rss", Value.uint64 2048), ("net.0.rx.bytes", Value.uint64 7)])]).sent.length
      = 3 :=
  C19_one_metric_per_handled_entry [("vm1", [("cpu.time", Value.uint64 1000000000),
      ("vcpu.0.state", Value.int32 1), ("vcpu.current", Value.uint32 4)]),
      ("vm2", [("balloon.rss", Value.uint64 2048), ("net.0.rx.bytes", Value.uint64 7)])]
    (by decide)

end PromLibvirt
